import Mathlib

/-!
Verification of the "swift-plus" hybrid storage driver: a filesystem-like
abstraction over a relational metadata table (`files`, `segments`) and an
external object store.  The Lean definitions below are a shallow embedding
of the Go source (driver facade, directory maintenance, segmented writer);
the object-store adapter (an external collaborator, not part of the source
tree) is modelled from its interface specification.

Paths are slash-separated logical paths; the driver's wrapper guarantees
clean absolute paths, so the Go `path.Dir` / `path.Base` / `path.Join`
helpers are modelled on that domain.
-/

set_option maxHeartbeats 1000000

/-- Bytes are modelled as natural numbers; content is treated opaquely. -/
abbrev Byte := Nat

/-- Drop the trailing slash characters of a character list. -/
def dropTrailingSlashes (l : List Char) : List Char :=
  (l.reverse.dropWhile (fun c => c = '/')).reverse

/-- Go `path.Base`: the last element of the path.  Empty path gives ".",
an all-slash path gives "/". -/
def goBase (p : String) : String :=
  if p = "" then "."
  else
    let l := dropTrailingSlashes p.toList
    if l = [] then "/" else String.mk (l.reverse.takeWhile (fun c => c ≠ '/')).reverse

/-- Go `path.Dir`: everything before the final slash, cleaned of trailing
slashes; "." when there is no slash, "/" when only slashes remain. -/
def goDir (p : String) : String :=
  let keep := (p.toList.reverse.dropWhile (fun c => c ≠ '/')).reverse
  if keep = [] then "."
  else
    let trimmed := dropTrailingSlashes keep
    if trimmed = [] then "/" else String.mk trimmed

/-- Go `path.Join` restricted to the driver's domain: a dirname that is "/"
or a clean absolute path, joined with a basename. -/
def goJoin (d b : String) : String :=
  if d = "" then b
  else if b = "" then d
  else if d = "/" then "/" ++ b
  else d ++ "/" ++ b

/-- Go `strings.Trim(s, "/")`: remove leading and trailing slashes. -/
def trimSlashes (p : String) : String :=
  String.mk (dropTrailingSlashes (p.toList.dropWhile (fun c => c = '/')))

/-- `prependPrefix` of the source: prepend the configured object-name
prefix to a container-relative object path. -/
def prependPfx (pfx fullPath : String) : String :=
  if pfx = "" then trimSlashes fullPath
  else pfx ++ "/" ++ trimSlashes fullPath

/-- The canonical clean absolute path made of the given components:
`joinComps ["a","b"] = "/a/b"`, `joinComps [] = "/"`. -/
def joinComps : List String → String
  | [] => "/"
  | [c] => "/" ++ c
  | c :: cs => "/" ++ c ++ joinComps cs

/-- A well-formed path component: nonempty and slash-free. -/
def wfComp (c : String) : Prop := c ≠ "" ∧ '/' ∉ c.toList

/-- All components of a list are well-formed. -/
def wfComps (l : List String) : Prop := ∀ c ∈ l, wfComp c

/-- `fmt.Sprintf("%016d", n)`: the decimal digits of `n`, zero-padded to
width 16. -/
def pad16 (n : Nat) : String :=
  String.mk (List.replicate (16 - (toString n).length) '0') ++ toString n

/-- The error taxonomy surfaced by the driver operations.  `outOfFuel`
stands for the database/recursion failures of the source that the model
cannot reproduce exactly (exhausted recursion fuel). -/
inductive Err where
  | pathNotFound (path : String)
  | unsupportedMethod
  | alreadyClosed
  | alreadyCancelled
  | alreadyCommitted
  | dupSegment
  | outOfFuel
deriving DecidableEq, Repr

/-- A row of the `files` table (the source's `fileInfo`): key
(DirName, BaseName), a signed size whose negative sentinel marks a
directory, inline content and an optional external location. -/
structure fileInfo where
  DirName : String
  BaseName : String
  SizeBytes : Int
  ModifiedAt : Nat
  Contents : List Byte
  Location : String
deriving DecidableEq, Repr

/-- `fileInfo.IsDir` of the source. -/
def fileInfo.IsDir (fi : fileInfo) : Prop := fi.SizeBytes < 0

instance (fi : fileInfo) : Decidable fi.IsDir := by
  unfold fileInfo.IsDir; infer_instance

/-- `fileInfo.Path` of the source. -/
def fiPath (fi : fileInfo) : String := goJoin fi.DirName fi.BaseName

/-- `fileInfo.ObjectPath` of the source: where the blob for this file is
stored in the object store. -/
def objectPath (fi : fileInfo) : String := fi.Location ++ "/content"

/-- A row of the `segments` table. -/
structure segRow where
  Location : String
  Number : Nat
  SizeBytes : Nat
  Hash : String
deriving DecidableEq, Repr

/-- The source's `plusSegment` (a segment together with the configured
object prefix; the source field `Prefix` is called `Pfx` here). -/
structure plusSegment where
  Pfx : String
  Location : String
  Number : Nat
  SizeBytes : Nat
  Hash : String
deriving DecidableEq, Repr

/-- `plusSegment.ObjectPath` of the source. -/
def segObjectPath (s : plusSegment) : String :=
  prependPfx s.Pfx s.Location ++ "/" ++ pad16 s.Number

/-- Modelled from the spec: an object held by the Object Store Adapter is
either a plain byte object or a manifest (SLO) referencing an ordered list
of segment object paths. -/
inductive swiftObj where
  | plain (data : List Byte)
  | slo (segPaths : List String)
deriving DecidableEq, Repr

/-- The whole driver state: both database tables, the object store
contents, a counter of object-store write calls, the random source and
clock, the configured object-name prefix, and a ghost log of the `files`
rows deleted (in deletion order). -/
structure DState where
  files : List fileInfo
  segments : List segRow
  swObjects : List (String × swiftObj)
  swWriteCalls : Nat
  randCtr : Nat
  clock : Nat
  objPfx : String
  delLog : List (String × String)
deriving DecidableEq, Repr

/-- Modelled from the spec: `plusRandLocation` draws a fresh
cryptographically random token; the model draws the next token from a
counter-indexed stream of pairwise distinct nonempty strings. -/
def randLoc (n : Nat) : String := "r" ++ toString n

/-- Modelled from the spec: the content hash returned by the object store
on upload (opaque, not recomputed locally). -/
def swiftHash (data : List Byte) : String := toString data

/-- Look an object up by its exact object path. -/
def swiftLookup (objs : List (String × swiftObj)) (p : String) : Option swiftObj :=
  (objs.find? (fun e => e.1 == p)).map (fun e => e.2)

/-- Store (insert or overwrite) an object at an object path. -/
def swiftStore (objs : List (String × swiftObj)) (p : String) (o : swiftObj) :
    List (String × swiftObj) :=
  if (objs.find? (fun e => e.1 == p)).isSome then
    objs.map (fun e => if e.1 == p then (p, o) else e)
  else objs ++ [(p, o)]

/-- Modelled from the spec: `write(objectPath, bytes) -> hash` of the
Object Store Adapter; counts as one write call. -/
def swiftWrite (s : DState) (p : String) (data : List Byte) : DState × String :=
  ({ s with swObjects := swiftStore s.swObjects p (.plain data),
            swWriteCalls := s.swWriteCalls + 1 }, swiftHash data)

/-- Modelled from the spec: `writeManifest(objectPath, orderedSegments)` of
the Object Store Adapter; counts as one write call. -/
def swiftWriteSLO (s : DState) (p : String) (segs : List plusSegment) : DState :=
  { s with swObjects := swiftStore s.swObjects p (.slo (segs.map segObjectPath)),
           swWriteCalls := s.swWriteCalls + 1 }

/-- Resolve an object path to its full byte content: a manifest object is
read back as the concatenation of its segments, in order. -/
def swiftResolve (objs : List (String × swiftObj)) (p : String) : Option (List Byte) :=
  match swiftLookup objs p with
  | none => none
  | some (.plain d) => some d
  | some (.slo paths) =>
      paths.foldr (fun q acc =>
        match swiftLookup objs q, acc with
        | some (.plain d), some rest => some (d ++ rest)
        | _, _ => none) (some [])

/-- Modelled from the spec: `read(objectPath, offset) -> byteStream` of the
Object Store Adapter.  A missing object reports the internal object path;
the facade rewrites it. -/
def swiftRead (s : DState) (p : String) (offset : Nat) : Except Err (List Byte) :=
  match swiftResolve s.swObjects p with
  | none => .error (.pathNotFound p)
  | some d => .ok (d.drop offset)

/-- Modelled from the spec: `deleteAll(prefix)` of the Object Store
Adapter removes every object whose path begins with the given prefix. -/
def swiftDeleteAll (s : DState) (pre : String) : DState :=
  { s with swObjects := s.swObjects.filter (fun e => !(e.1.startsWith pre)) }

/-- Modelled from the spec: `makeTemporaryURL(objectPath, options)` of the
Object Store Adapter returns a capability URL for the object. -/
def swiftTempURL (p : String) : String := "tempurl/" ++ p

/-- `setReportedPath` of the source: a NotFound-shaped error is rewritten
to carry the logical path, never the internal object path. -/
def setReportedPath (e : Err) (p : String) : Err :=
  match e with
  | .pathNotFound _ => .pathNotFound p
  | e => e

/-- The SQL `SELECT .. FROM files WHERE dirname = $1 AND basename = $2`:
amongst the rows, find the one with the given key. -/
def findRow (T : List fileInfo) (d b : String) : Option fileInfo :=
  T.find? (fun r => r.DirName == d && r.BaseName == b)

/-- `readFileInfo` of the source: look the record for a full path up by
its (dirname, basename) key; `none` models `sql.ErrNoRows`. -/
def readFileInfo (s : DState) (fullPath : String) : Option fileInfo :=
  findRow s.files (goDir fullPath) (goBase fullPath)

/-- The `INSERT .. ON CONFLICT DO UPDATE` of `writeFileInfo`: replace the
row at the key if present, otherwise append it. -/
def upsertRow (T : List fileInfo) (fi : fileInfo) : List fileInfo :=
  if (findRow T fi.DirName fi.BaseName).isSome then
    T.map (fun r => if r.DirName == fi.DirName && r.BaseName == fi.BaseName then fi else r)
  else T ++ [fi]

/-- The directory-marker row inserted by `mkdirAll`: size sentinel -1,
empty content, empty location. -/
def markerRow (d b : String) (now : Nat) : fileInfo :=
  { DirName := d, BaseName := b, SizeBytes := -1, ModifiedAt := now,
    Contents := [], Location := "" }

/-- The `INSERT .. ON CONFLICT DO NOTHING` of `mkdirAll`: insert a
directory-marker row unless the key is already taken. -/
def insertIgnoreDir (T : List fileInfo) (d b : String) (now : Nat) : List fileInfo :=
  if (findRow T d b).isSome then T
  else T ++ [markerRow d b now]

/-- `mkdirAll` of the source, with explicit recursion fuel: insert a
directory marker for `fullPath` and every ancestor, stopping at the root.
The source recurses on `path.Dir`; the fuel stands for that recursion's
termination, which Go only reaches on clean absolute paths. -/
def mkdirAllF : Nat → DState → String → Except Err DState
  | 0, _, _ => .error .outOfFuel
  | n + 1, s, p =>
    if p = "/" ∨ p = "" then .ok s
    else
      mkdirAllF n
        { s with files := insertIgnoreDir s.files (goDir p) (goBase p) s.clock }
        (goDir p)

/-- `mkdirAll` with the fuel chosen large enough for every clean absolute
path (one ancestor per path character is a strict upper bound). -/
def mkdirAll (s : DState) (p : String) : Except Err DState :=
  mkdirAllF (p.length + 1) s p

/-- `writeFileInfo` of the source: stamp the modification time if unset,
upsert the row, then create the directories above it. -/
def writeFileInfo (s : DState) (fi : fileInfo) : Except Err DState :=
  let fi := if fi.ModifiedAt = 0 then { fi with ModifiedAt := s.clock } else fi
  mkdirAll { s with files := upsertRow s.files fi } fi.DirName

/-- `deleteBlobs` of the source: if the file has an external location,
remove every object under that location's prefix from the object store. -/
def deleteBlobs (s : DState) (fi : fileInfo) : DState :=
  if fi.Location = "" then s
  else swiftDeleteAll s (prependPfx s.objPfx fi.Location ++ "/")

/-- The `DELETE FROM files WHERE dirname = $1 AND basename = $2`. -/
def deleteRow (T : List fileInfo) (d b : String) : List fileInfo :=
  T.filter (fun r => !(r.DirName == d && r.BaseName == b))

mutual

/-- `deleteDownwards` of the source, with explicit recursion fuel: delete
the blobs of `fi`, recurse into the children when `fi` is a directory
(the child scan is a snapshot, as the SQL result set is), then delete the
row itself (recorded in the ghost deletion log). -/
def deleteDownwardsF : Nat → DState → fileInfo → Except Err DState
  | 0, _, _ => .error .outOfFuel
  | n + 1, s, fi =>
    let s1 := deleteBlobs s fi
    let next :=
      if fi.IsDir then
        delChildren n s1
          ((s1.files.filter (fun r => r.DirName == fiPath fi)).map
            (fun r => { r with DirName := fiPath fi }))
      else .ok s1
    match next with
    | .error e => .error e
    | .ok s2 =>
      .ok { s2 with files := deleteRow s2.files fi.DirName fi.BaseName,
                    delLog := s2.delLog ++ [(fi.DirName, fi.BaseName)] }
termination_by n _ _ => (n, 0)

/-- Delete a list of child records in order (the `rows.Next()` loop). -/
def delChildren : Nat → DState → List fileInfo → Except Err DState
  | _, s, [] => .ok s
  | n, s, fi :: rest =>
    match deleteDownwardsF n s fi with
    | .error e => .error e
    | .ok s' => delChildren n s' rest
termination_by n _ l => (n, l.length + 1)

end

/-- `deleteDownwards` with fuel bounded by the table size (sufficient for
any table whose keys form a well-formed forest). -/
def deleteDownwards (s : DState) (fi : fileInfo) : Except Err DState :=
  deleteDownwardsF (s.files.length + 1) s fi

/-- The inline-tier threshold (`maxInlineSizeBytes`). -/
def maxInlineSizeBytes : Nat := 256

/-- `GetContent` of the source: missing records and directories are
NotFound; a zero-size record is empty content; inline content is served
from the row; otherwise the blob is read from the object store and a
NotFound there is rewritten to the logical path. -/
def GetContent (s : DState) (fullPath : String) : Except Err (List Byte) :=
  match readFileInfo s fullPath with
  | none => .error (.pathNotFound fullPath)
  | some fi =>
    if fi.IsDir then .error (.pathNotFound fullPath)
    else if fi.SizeBytes = 0 then .ok []
    else if fi.Contents.length > 0 then .ok fi.Contents
    else
      match swiftRead s (prependPfx s.objPfx (objectPath fi)) 0 with
      | .error e => .error (setReportedPath e (fiPath fi))
      | .ok data => .ok data

/-- `PutContent` of the source: delete the previous blob if the record
exists, insert the new record (inline below the threshold, a fresh random
external location above it), then upload to the object store only in the
external case. -/
def PutContent (s : DState) (fullPath : String) (contents : List Byte) :
    Except Err DState :=
  let s1 := match readFileInfo s fullPath with
            | some fi => deleteBlobs s fi
            | none => s
  let big := maxInlineSizeBytes < contents.length
  let loc := if big then randLoc s1.randCtr else ""
  let s2 := if big then { s1 with randCtr := s1.randCtr + 1 } else s1
  let fi : fileInfo :=
    { DirName := goDir fullPath, BaseName := goBase fullPath,
      SizeBytes := (contents.length : Int), ModifiedAt := 0,
      Contents := if big then [] else contents, Location := loc }
  match writeFileInfo s2 fi with
  | .error e => .error e
  | .ok s3 =>
    if big then .ok (swiftWrite s3 (prependPfx s3.objPfx (objectPath fi)) contents).1
    else .ok s3

/-- `Stat` of the source: "/" is special-cased to a synthetic directory
descriptor; otherwise the row is returned, or NotFound. -/
def Stat (s : DState) (fullPath : String) : Except Err fileInfo :=
  if fullPath = "/" then
    .ok { DirName := "/", BaseName := "/", SizeBytes := -1, ModifiedAt := 0,
          Contents := [], Location := "" }
  else
    match readFileInfo s fullPath with
    | none => .error (.pathNotFound fullPath)
    | some fi => .ok fi

/-- `List` of the source: the basenames of the rows whose dirname equals
the path exactly, joined back onto the path.  An empty result is not an
error. -/
def ListOp (s : DState) (fullPath : String) : Except Err (List String) :=
  .ok ((s.files.filter (fun r => r.DirName == fullPath)).map
        (fun r => goJoin fullPath r.BaseName))

/-- The `UPDATE files SET dirname = $1, basename = $2 WHERE ...` of
`Move`: rewrite the key of the rows matching the old key.  (When `Move`
runs, the destination key is always free, so the primary key cannot be
violated.) -/
def updateRowKey (T : List fileInfo) (newD newB oldD oldB : String) : List fileInfo :=
  T.map (fun r =>
    if r.DirName == oldD && r.BaseName == oldB then
      { r with DirName := newD, BaseName := newB }
    else r)

/-- `Move` of the source: NotFound if the source record is missing; an
existing destination subtree is deleted first; then the single record's
key is rewritten and the directories above the destination are created. -/
def Move (s : DState) (sourcePath destPath : String) : Except Err DState :=
  match readFileInfo s sourcePath with
  | none => .error (.pathNotFound sourcePath)
  | some fi1 =>
    let s1res := match readFileInfo s destPath with
                 | some fi2 => deleteDownwards s fi2
                 | none => .ok s
    match s1res with
    | .error e => .error e
    | .ok s1 =>
      mkdirAll
        { s1 with files := updateRowKey s1.files (goDir destPath) (goBase destPath)
                              fi1.DirName fi1.BaseName }
        (goDir destPath)

/-- `Delete` of the source: a no-op on a missing record, otherwise the
whole subtree is deleted. -/
def Delete (s : DState) (fullPath : String) : Except Err DState :=
  match readFileInfo s fullPath with
  | none => .ok s
  | some fi => deleteDownwards s fi

/-- `URLFor` of the source: NotFound for a missing record; unsupported for
a record without external location; otherwise a temporary URL from the
object store. -/
def URLFor (s : DState) (fullPath : String) : Except Err String :=
  match readFileInfo s fullPath with
  | none => .error (.pathNotFound fullPath)
  | some fi =>
    if fi.Location = "" then .error .unsupportedMethod
    else .ok (swiftTempURL (prependPfx s.objPfx (objectPath fi)))

/-! ### Lemmas about the path helpers on clean absolute paths -/

theorem takeWhile_all_append_cons {α : Type} {p : α → Bool} (xs : List α)
    (h : ∀ x ∈ xs, p x = true) (y : α) (hy : p y = false) (ys : List α) :
    (xs ++ y :: ys).takeWhile p = xs := by
  induction xs with
  | nil => simp [List.takeWhile_cons, hy]
  | cons a l ih =>
    have ha : p a = true := h a (by simp)
    simp only [List.cons_append, List.takeWhile_cons, ha, if_true]
    rw [ih (fun x hx => h x (by simp [hx]))]

theorem dropWhile_all_append_cons {α : Type} {p : α → Bool} (xs : List α)
    (h : ∀ x ∈ xs, p x = true) (y : α) (hy : p y = false) (ys : List α) :
    (xs ++ y :: ys).dropWhile p = y :: ys := by
  induction xs with
  | nil => simp [List.dropWhile_cons, hy]
  | cons a l ih =>
    have ha : p a = true := h a (by simp)
    simp only [List.cons_append, List.dropWhile_cons, ha, if_true]
    exact ih (fun x hx => h x (by simp [hx]))

theorem dropTrailingSlashes_last_ne (l : List Char) (ch : Char)
    (hl : l.getLast? = some ch) (hch : ch ≠ '/') : dropTrailingSlashes l = l := by
  rcases List.getLast?_eq_some_iff.mp hl with ⟨ys, rfl⟩
  unfold dropTrailingSlashes
  rw [List.reverse_append, List.reverse_singleton, List.singleton_append,
    List.dropWhile_cons]
  simp [hch]

theorem dropTrailingSlashes_append_slash (l : List Char) :
    dropTrailingSlashes (l ++ ['/']) = dropTrailingSlashes l := by
  unfold dropTrailingSlashes
  rw [List.reverse_append, List.reverse_singleton, List.singleton_append,
    List.dropWhile_cons]
  simp

theorem goBase_data (p : String) (l w : List Char) (hp : p.data = l ++ '/' :: w)
    (hw : w ≠ []) (hns : '/' ∉ w) : goBase p = String.mk w := by
  have hpne : p ≠ "" := by
    intro h
    rw [h] at hp
    exact absurd hp.symm (by simp)
  have hch : w.getLast? = some (w.getLast hw) := List.getLast?_eq_getLast w hw
  have hchne : w.getLast hw ≠ '/' := fun hc => hns (hc ▸ List.getLast_mem hw)
  have hcons : ('/' :: w).getLast? = w.getLast? := by
    cases w with
    | nil => exact absurd rfl hw
    | cons a as => exact List.getLast?_cons_cons
  have hfull : (l ++ '/' :: w).getLast? = some (w.getLast hw) := by
    rw [List.getLast?_append, hcons, hch]
    rfl
  have hdts : dropTrailingSlashes (l ++ '/' :: w) = l ++ '/' :: w :=
    dropTrailingSlashes_last_ne _ _ hfull hchne
  have htl : p.toList = l ++ '/' :: w := hp
  unfold goBase
  rw [if_neg hpne]
  simp only [htl, hdts]
  rw [if_neg (by simp)]
  congr 1
  rw [List.reverse_append, List.reverse_cons, List.append_assoc, List.singleton_append]
  rw [takeWhile_all_append_cons w.reverse
    (fun x hx => by
      simp only [decide_eq_true_eq]
      intro h
      exact hns (h ▸ List.mem_reverse.mp hx))
    '/' (by simp) _]
  exact List.reverse_reverse w

theorem goDir_data (p : String) (l w : List Char) (hp : p.data = l ++ '/' :: w)
    (hns : '/' ∉ w) :
    goDir p = if dropTrailingSlashes l = [] then "/" else String.mk (dropTrailingSlashes l) := by
  have htl : p.toList = l ++ '/' :: w := hp
  have hkeep : (p.toList.reverse.dropWhile (fun c => decide (c ≠ '/'))).reverse = l ++ ['/'] := by
    rw [htl, List.reverse_append, List.reverse_cons, List.append_assoc, List.singleton_append]
    rw [dropWhile_all_append_cons w.reverse
      (fun x hx => by
        simp only [decide_eq_true_eq]
        intro h
        exact hns (h ▸ List.mem_reverse.mp hx))
      '/' (by simp) _]
    rw [List.reverse_cons, List.reverse_reverse]
  unfold goDir
  simp only [hkeep]
  rw [if_neg (by simp), dropTrailingSlashes_append_slash]

theorem joinComps_cons₂ (a b : String) (l : List String) :
    joinComps (a :: b :: l) = "/" ++ a ++ joinComps (b :: l) := rfl

theorem joinComps_data_cons (a : String) (l : List String) (h : l ≠ []) :
    (joinComps (a :: l)).data = '/' :: a.data ++ (joinComps l).data := by
  cases l with
  | nil => exact absurd rfl h
  | cons b m =>
    rw [joinComps_cons₂, String.data_append, String.data_append]
    simp

theorem joinComps_append_single (cs : List String) (c : String) (h : cs ≠ []) :
    joinComps (cs ++ [c]) = joinComps cs ++ "/" ++ c := by
  induction cs with
  | nil => exact absurd rfl h
  | cons a l ih =>
    apply String.ext
    cases l with
    | nil =>
      show (joinComps [a, c]).data = (("/" ++ a) ++ "/" ++ c).data
      rw [joinComps_data_cons a [c] (by simp), String.data_append, String.data_append]
      show '/' :: a.data ++ ('/' :: c.data) = ('/' :: a.data) ++ "/".data ++ c.data
      simp
    | cons b m =>
      show (joinComps (a :: ((b :: m) ++ [c]))).data = _
      rw [joinComps_data_cons a ((b :: m) ++ [c]) (by simp), ih (by simp)]
      simp only [String.data_append, joinComps_data_cons a (b :: m) (by simp)]
      simp

theorem joinComps_data_head (cs : List String) : ∃ t, (joinComps cs).data = '/' :: t := by
  cases cs with
  | nil => exact ⟨[], rfl⟩
  | cons a l =>
    cases l with
    | nil => exact ⟨a.data, rfl⟩
    | cons b m =>
      refine ⟨a.data ++ (joinComps (b :: m)).data, ?_⟩
      rw [joinComps_cons₂]
      rw [String.data_append, String.data_append]
      rfl

theorem joinComps_data_ne_nil (cs : List String) : (joinComps cs).data ≠ [] := by
  rcases joinComps_data_head cs with ⟨t, ht⟩
  rw [ht]
  simp

theorem joinComps_ne_empty (cs : List String) : joinComps cs ≠ "" := by
  intro h
  exact joinComps_data_ne_nil cs (by rw [h])

theorem joinComps_getLast_ne (cs : List String) (hw : wfComps cs) (hne : cs ≠ []) :
    ∃ ch, (joinComps cs).data.getLast? = some ch ∧ ch ≠ '/' := by
  induction cs with
  | nil => exact absurd rfl hne
  | cons a l ih =>
    cases l with
    | nil =>
      have ha : wfComp a := hw a (by simp)
      have hane : a.data ≠ [] := fun h => ha.1 (String.ext h)
      refine ⟨a.data.getLast hane, ?_, ?_⟩
      · show ('/' :: a.data).getLast? = _
        rw [show ('/' :: a.data) = ['/'] ++ a.data from rfl, List.getLast?_append,
          List.getLast?_eq_getLast a.data hane]
        rfl
      · intro hc
        exact ha.2 (hc ▸ List.getLast_mem hane)
    | cons b m =>
      rcases ih (fun c hc => hw c (by simp [hc])) (by simp) with ⟨ch, hch, hchne⟩
      refine ⟨ch, ?_, hchne⟩
      rw [joinComps_cons₂, String.data_append]
      rw [List.getLast?_append, hch]
      rfl

theorem joinComps_dts (cs : List String) (hw : wfComps cs) (hne : cs ≠ []) :
    dropTrailingSlashes (joinComps cs).data = (joinComps cs).data := by
  rcases joinComps_getLast_ne cs hw hne with ⟨ch, hch, hchne⟩
  exact dropTrailingSlashes_last_ne _ _ hch hchne

theorem joinComps_concat_data (cs : List String) (c : String) (h : cs ≠ []) :
    (joinComps (cs ++ [c])).data = (joinComps cs).data ++ '/' :: c.data := by
  rw [joinComps_append_single _ _ h, String.data_append, String.data_append]
  simp

theorem goDir_joinComps (cs : List String) (c : String) (hw : wfComps cs) (hc : wfComp c) :
    goDir (joinComps (cs ++ [c])) = joinComps cs := by
  cases cs with
  | nil =>
    have hp : (joinComps ([] ++ [c])).data = [] ++ '/' :: c.data := rfl
    rw [goDir_data _ _ _ hp hc.2]
    simp [dropTrailingSlashes, joinComps]
  | cons a l =>
    have hne : a :: l ≠ [] := by simp
    rw [goDir_data _ _ _ (joinComps_concat_data (a :: l) c hne) hc.2,
      joinComps_dts _ hw hne, if_neg (joinComps_data_ne_nil _)]

theorem goBase_joinComps (cs : List String) (c : String) (hc : wfComp c) :
    goBase (joinComps (cs ++ [c])) = c := by
  have hcne : c.data ≠ [] := fun h => hc.1 (String.ext h)
  cases cs with
  | nil =>
    have hp : (joinComps ([] ++ [c])).data = [] ++ '/' :: c.data := rfl
    rw [goBase_data _ _ _ hp hcne hc.2]
  | cons a l =>
    rw [goBase_data _ _ _ (joinComps_concat_data (a :: l) c (by simp)) hcne hc.2]

theorem joinComps_data_two_le (a : String) (l : List String) (ha : wfComp a) :
    2 ≤ (joinComps (a :: l)).data.length := by
  have hane : a.data ≠ [] := fun h => ha.1 (String.ext h)
  have h1 : 1 ≤ a.data.length := List.length_pos.mpr hane
  cases l with
  | nil =>
    show 2 ≤ ('/' :: a.data).length
    simp only [List.length_cons]
    omega
  | cons b m =>
    rw [joinComps_data_cons a (b :: m) (by simp)]
    simp only [List.cons_append, List.length_cons, List.length_append]
    omega

theorem joinComps_ne_root (cs : List String) (hw : wfComps cs) (hne : cs ≠ []) :
    joinComps cs ≠ "/" := by
  cases cs with
  | nil => exact absurd rfl hne
  | cons a l =>
    intro h
    have h2 := joinComps_data_two_le a l (hw a (by simp))
    rw [h] at h2
    simp at h2

theorem joinComps_length (cs : List String) : cs.length ≤ (joinComps cs).length := by
  induction cs with
  | nil => simp
  | cons a l ih =>
    have hs : ("/" : String).length = 1 := by decide
    cases l with
    | nil =>
      show 1 ≤ ("/" ++ a).length
      rw [String.length_append, hs]
      omega
    | cons b m =>
      rw [joinComps_cons₂, String.length_append, String.length_append, hs]
      have ih' : (b :: m).length ≤ (joinComps (b :: m)).length := ih
      simp only [List.length_cons] at ih' ⊢
      omega

theorem chunk_inj : ∀ (l1 l2 t1 t2 : List Char), '/' ∉ l1 → '/' ∉ l2 →
    l1 ++ '/' :: t1 = l2 ++ '/' :: t2 → l1 = l2 ∧ t1 = t2 := by
  intro l1
  induction l1 with
  | nil =>
    intro l2 t1 t2 _ h2 he
    cases l2 with
    | nil =>
      rw [List.nil_append, List.nil_append] at he
      injection he with _ he2
      exact ⟨rfl, he2⟩
    | cons c l2' =>
      rw [List.nil_append, List.cons_append] at he
      injection he with he1 _
      exact absurd (by rw [← he1]; exact List.mem_cons_self _ _) h2
  | cons a l1' ih =>
    intro l2 t1 t2 h1 h2 he
    cases l2 with
    | nil =>
      rw [List.cons_append, List.nil_append] at he
      injection he with he1 _
      exact absurd (by rw [he1]; exact List.mem_cons_self _ _) h1
  
    | cons c l2' =>
      rw [List.cons_append, List.cons_append] at he
      injection he with he1 he2
      rcases ih l2' t1 t2 (fun h => h1 (List.mem_cons_of_mem _ h))
        (fun h => h2 (List.mem_cons_of_mem _ h)) he2 with ⟨hl, ht⟩
      exact ⟨by rw [he1, hl], ht⟩

theorem joinComps_inj : ∀ (xs ys : List String), wfComps xs → wfComps ys →
    joinComps xs = joinComps ys → xs = ys := by
  intro xs
  induction xs with
  | nil =>
    intro ys _ hy he
    cases ys with
    | nil => rfl
    | cons b ys' =>
      exfalso
      have h2 := joinComps_data_two_le b ys' (hy b (by simp))
      rw [← he] at h2
      simp [joinComps] at h2
  | cons a xs' ih =>
    intro ys hx hy he
    cases ys with
    | nil =>
      exfalso
      have h2 := joinComps_data_two_le a xs' (hx a (by simp))
      rw [he] at h2
      simp [joinComps] at h2
    | cons b ys' =>
      have ha : wfComp a := hx a (by simp)
      have hb : wfComp b := hy b (by simp)
      cases xs' with
      | nil =>
        cases ys' with
        | nil =>
          have hd := congrArg String.data he
          have hda : (joinComps [a]).data = '/' :: a.data := rfl
          have hdb : (joinComps [b]).data = '/' :: b.data := rfl
          rw [hda, hdb] at hd
          injection hd with _ hd2
          rw [String.ext hd2]
        | cons b2 ys'' =>
          exfalso
          obtain ⟨ty, hty⟩ := joinComps_data_head (b2 :: ys'')
          have hd := congrArg String.data he
          have hda : (joinComps [a]).data = '/' :: a.data := rfl
          rw [hda, joinComps_data_cons b (b2 :: ys'') (by simp), hty,
            List.cons_append] at hd
          injection hd with _ hd2
          exact ha.2 (by show '/' ∈ a.data; rw [hd2]; exact List.mem_append_right _ (by simp))
      | cons a2 xs'' =>
        cases ys' with
        | nil =>
          exfalso
          obtain ⟨tx, htx⟩ := joinComps_data_head (a2 :: xs'')
          have hd := congrArg String.data he
          have hdb : (joinComps [b]).data = '/' :: b.data := rfl
          rw [hdb, joinComps_data_cons a (a2 :: xs'') (by simp), htx,
            List.cons_append] at hd
          injection hd with _ hd2
          exact hb.2 (by show '/' ∈ b.data; rw [← hd2]; exact List.mem_append_right _ (by simp))
        | cons b2 ys'' =>
          obtain ⟨tx, htx⟩ := joinComps_data_head (a2 :: xs'')
          obtain ⟨ty, hty⟩ := joinComps_data_head (b2 :: ys'')
          have hd := congrArg String.data he
          rw [joinComps_data_cons a (a2 :: xs'') (by simp),
            joinComps_data_cons b (b2 :: ys'') (by simp), htx, hty,
            List.cons_append, List.cons_append] at hd
          injection hd with _ hd2
          rcases chunk_inj a.data b.data tx ty ha.2 hb.2 hd2 with ⟨hab, hty2⟩
          have htail : joinComps (a2 :: xs'') = joinComps (b2 :: ys'') := by
            apply String.ext
            rw [htx, hty, hty2]
          have := ih (b2 :: ys'') (fun c hc => hx c (by simp [hc]))
            (fun c hc => hy c (by simp [hc])) htail
          rw [String.ext hab, this]

theorem goJoin_joinComps (cs : List String) (b : String) (hw : wfComps cs) (hb : wfComp b) :
    goJoin (joinComps cs) b = joinComps (cs ++ [b]) := by
  unfold goJoin
  rw [if_neg (joinComps_ne_empty cs), if_neg hb.1]
  cases cs with
  | nil =>
    rw [if_pos (show joinComps [] = "/" from rfl)]
    rfl
  | cons a l =>
    rw [if_neg (joinComps_ne_root (a :: l) hw (by simp))]
    exact (joinComps_append_single _ _ (by simp)).symm

/-! ### Lemmas about the `files` table primitives -/

theorem findRow_isSome_iff (T : List fileInfo) (d b : String) :
    (findRow T d b).isSome ↔ ∃ r ∈ T, r.DirName = d ∧ r.BaseName = b := by
  unfold findRow
  rw [List.find?_isSome]
  simp

theorem findRow_eq_none_iff (T : List fileInfo) (d b : String) :
    findRow T d b = none ↔ ∀ r ∈ T, ¬(r.DirName = d ∧ r.BaseName = b) := by
  unfold findRow
  rw [List.find?_eq_none]
  simp

theorem findRow_some_key {T : List fileInfo} {d b : String} {r : fileInfo}
    (h : findRow T d b = some r) : r.DirName = d ∧ r.BaseName = b := by
  have := List.find?_some h
  simpa using this

theorem findRow_some_mem {T : List fileInfo} {d b : String} {r : fileInfo}
    (h : findRow T d b = some r) : r ∈ T := List.mem_of_find?_eq_some h

theorem findRow_append (T E : List fileInfo) (d b : String) :
    findRow (T ++ E) d b = (findRow T d b).or (findRow E d b) := by
  unfold findRow
  exact List.find?_append

theorem findRow_append_left {T : List fileInfo} (E : List fileInfo) {d b : String}
    (h : (findRow T d b).isSome) : findRow (T ++ E) d b = findRow T d b := by
  rw [findRow_append]
  cases hT : findRow T d b with
  | none => rw [hT] at h; simp at h
  | some r => rfl

theorem findRow_isSome_mono {T : List fileInfo} (E : List fileInfo) {d b : String}
    (h : (findRow T d b).isSome) : (findRow (T ++ E) d b).isSome := by
  rw [findRow_append_left E h]
  exact h

theorem findRow_singleton_self (r : fileInfo) :
    findRow [r] r.DirName r.BaseName = some r := by
  unfold findRow
  simp

theorem findRow_singleton_ne (r : fileInfo) (d b : String)
    (h : ¬(r.DirName = d ∧ r.BaseName = b)) : findRow [r] d b = none := by
  unfold findRow
  rw [List.find?_cons_of_neg _ (by simpa using h)]
  rfl

theorem find?_map_replace (T : List fileInfo) (fi : fileInfo)
    (h : (findRow T fi.DirName fi.BaseName).isSome) :
    findRow (T.map (fun r =>
        if r.DirName == fi.DirName && r.BaseName == fi.BaseName then fi else r))
      fi.DirName fi.BaseName = some fi := by
  induction T with
  | nil => simp [findRow] at h
  | cons r T' ih =>
    rw [List.map_cons]
    by_cases hr : r.DirName = fi.DirName ∧ r.BaseName = fi.BaseName
    · have hb : (r.DirName == fi.DirName && r.BaseName == fi.BaseName) = true := by
        simp [hr.1, hr.2]
      rw [if_pos hb]
      unfold findRow
      exact List.find?_cons_of_pos _ (by simp)
    · have hb : (r.DirName == fi.DirName && r.BaseName == fi.BaseName) = false := by
        simpa using hr
      rw [if_neg (by simp [hb])]
      have hT' : (findRow T' fi.DirName fi.BaseName).isSome := by
        unfold findRow at h
        rwa [List.find?_cons_of_neg _ (by simp [hb])] at h
      unfold findRow at ih ⊢
      rw [List.find?_cons_of_neg _ (by simp [hb])]
      exact ih hT'

theorem upsertRow_find_self (T : List fileInfo) (fi : fileInfo) :
    findRow (upsertRow T fi) fi.DirName fi.BaseName = some fi := by
  unfold upsertRow
  split
  case isTrue h => exact find?_map_replace T fi h
  case isFalse h =>
    rw [findRow_append]
    have hnone : findRow T fi.DirName fi.BaseName = none := by
      cases hT : findRow T fi.DirName fi.BaseName with
      | none => rfl
      | some r => rw [hT] at h; simp at h
    rw [hnone, findRow_singleton_self]
    rfl

theorem find?_map_replace_other (T : List fileInfo) (fi : fileInfo) (d b : String)
    (h : ¬(d = fi.DirName ∧ b = fi.BaseName)) :
    findRow (T.map (fun r =>
        if r.DirName == fi.DirName && r.BaseName == fi.BaseName then fi else r)) d b
      = findRow T d b := by
  induction T with
  | nil => rfl
  | cons r T' ih =>
    rw [List.map_cons]
    by_cases hr : r.DirName = fi.DirName ∧ r.BaseName = fi.BaseName
    · have hb : (r.DirName == fi.DirName && r.BaseName == fi.BaseName) = true := by
        simp [hr.1, hr.2]
      rw [if_pos hb]
      unfold findRow
      rw [List.find?_cons_of_neg _ (by
          simp only [Bool.and_eq_true, beq_iff_eq, not_and]
          intro hc1 hc2
          exact absurd ⟨hc1.symm, hc2.symm⟩ h),
        List.find?_cons_of_neg _ (by
          simp only [Bool.and_eq_true, beq_iff_eq, not_and]
          intro hc1 hc2
          exact absurd ⟨by rw [← hc1, hr.1], by rw [← hc2, hr.2]⟩ h)]
      exact ih
    · have hb : (r.DirName == fi.DirName && r.BaseName == fi.BaseName) = false := by
        simpa using hr
      rw [if_neg (by simp [hb])]
      unfold findRow
      by_cases hrb : r.DirName = d ∧ r.BaseName = b
      · rw [List.find?_cons_of_pos _ (by simp [hrb.1, hrb.2]),
          List.find?_cons_of_pos _ (by simp [hrb.1, hrb.2])]
      · rw [List.find?_cons_of_neg _ (by simpa using hrb),
          List.find?_cons_of_neg _ (by simpa using hrb)]
        exact ih

theorem upsertRow_find_other (T : List fileInfo) (fi : fileInfo) (d b : String)
    (h : ¬(d = fi.DirName ∧ b = fi.BaseName)) :
    findRow (upsertRow T fi) d b = findRow T d b := by
  unfold upsertRow
  split
  case isTrue _ => exact find?_map_replace_other T fi d b h
  case isFalse _ =>
    rw [findRow_append, findRow_singleton_ne fi d b
      (by intro hc; exact h ⟨hc.1.symm, hc.2.symm⟩)]
    cases findRow T d b <;> rfl

theorem upsertRow_mem {T : List fileInfo} {fi r : fileInfo}
    (h : r ∈ upsertRow T fi) : r = fi ∨ r ∈ T := by
  unfold upsertRow at h
  split at h
  · rcases List.mem_map.mp h with ⟨x, hx, hfx⟩
    by_cases hc : (x.DirName == fi.DirName && x.BaseName == fi.BaseName) = true
    · rw [if_pos hc] at hfx
      exact Or.inl hfx.symm
    · rw [if_neg hc] at hfx
      exact Or.inr (hfx ▸ hx)
  · rcases List.mem_append.mp h with hl | hr
    · exact Or.inr hl
    · exact Or.inl (by simpa using hr)

theorem upsertRow_mem_of_ne {T : List fileInfo} {fi r : fileInfo} (hr : r ∈ T)
    (hk : ¬(r.DirName = fi.DirName ∧ r.BaseName = fi.BaseName)) :
    r ∈ upsertRow T fi := by
  unfold upsertRow
  split
  · refine List.mem_map.mpr ⟨r, hr, ?_⟩
    rw [if_neg (by simpa using hk)]
  · exact List.mem_append_left _ hr

theorem insertIgnoreDir_extra (T : List fileInfo) (d b : String) (now : Nat) :
    ∃ extra, insertIgnoreDir T d b now = T ++ extra ∧
      (∀ r ∈ extra, r = markerRow d b now) ∧
      (findRow (T ++ extra) d b).isSome := by
  unfold insertIgnoreDir
  split
  case isTrue h =>
    exact ⟨[], by simp, by simp, by simpa using h⟩
  case isFalse h =>
    refine ⟨[markerRow d b now], rfl, by simp, ?_⟩
    rw [findRow_append]
    have hnone : findRow T d b = none := by
      cases hT : findRow T d b with
      | none => rfl
      | some r => rw [hT] at h; simp at h
    rw [hnone]
    have : findRow [markerRow d b now] d b = some (markerRow d b now) :=
      findRow_singleton_self (markerRow d b now)
    rw [this]
    rfl

/-! ### The specification of `mkdirAll` on clean absolute paths -/

theorem mkdirAllF_succ (n : Nat) (s : DState) (p : String) (h1 : p ≠ "/") (h2 : p ≠ "") :
    mkdirAllF (n + 1) s p
      = mkdirAllF n
          { s with files := insertIgnoreDir s.files (goDir p) (goBase p) s.clock }
          (goDir p) := by
  show (if p = "/" ∨ p = "" then (.ok s : Except Err DState)
      else mkdirAllF n
        { s with files := insertIgnoreDir s.files (goDir p) (goBase p) s.clock }
        (goDir p)) = _
  rw [if_neg (by push_neg; exact ⟨h1, h2⟩)]

theorem mkdirAllF_spec : ∀ (cs : List String) (fuel : Nat) (s : DState),
    wfComps cs → cs.length < fuel →
    ∃ extra, mkdirAllF fuel s (joinComps cs)
        = .ok { s with files := s.files ++ extra } ∧
      (∀ r ∈ extra, r.SizeBytes = -1 ∧ r.Contents = [] ∧ r.Location = "" ∧
        ∃ ds d es, r.DirName = joinComps ds ∧ r.BaseName = d ∧ cs = ds ++ d :: es) ∧
      (∀ ds d es, cs = ds ++ d :: es →
        (findRow (s.files ++ extra) (joinComps ds) d).isSome) := by
  intro cs
  induction cs using List.reverseRecOn with
  | nil =>
    intro fuel s _ hfuel
    obtain ⟨m, rfl⟩ : ∃ m, fuel = m + 1 := ⟨fuel - 1, by omega⟩
    refine ⟨[], ?_, by simp, ?_⟩
    · show mkdirAllF (m + 1) s "/" = _
      unfold mkdirAllF
      rw [if_pos (Or.inl rfl)]
      congr 1
      cases s
      simp
    · intro ds d es hsplit
      exact absurd (congrArg List.length hsplit) (by simp; omega)
  | append_singleton ds d ih =>
    intro fuel s hw hfuel
    obtain ⟨m, rfl⟩ : ∃ m, fuel = m + 1 := ⟨fuel - 1, by omega⟩
    have hdsw : wfComps ds := fun c hc => hw c (by simp [hc])
    have hdw : wfComp d := hw d (by simp)
    have hm : ds.length < m := by
      have := hfuel
      simp at this
      omega
    have hne1 : joinComps (ds ++ [d]) ≠ "/" :=
      joinComps_ne_root _ hw (by simp)
    have hne2 : joinComps (ds ++ [d]) ≠ "" := joinComps_ne_empty _
    have hgd : goDir (joinComps (ds ++ [d])) = joinComps ds :=
      goDir_joinComps ds d hdsw hdw
    have hgb : goBase (joinComps (ds ++ [d])) = d :=
      goBase_joinComps ds d hdw
    obtain ⟨e1, he1, he1m, he1f⟩ :=
      insertIgnoreDir_extra s.files (joinComps ds) d s.clock
    have hstep := mkdirAllF_succ m s (joinComps (ds ++ [d])) hne1 hne2
    rw [hgd, hgb, he1] at hstep
    obtain ⟨e2, he2, he2m, he2f⟩ := ih m { s with files := s.files ++ e1 } hdsw hm
    refine ⟨e1 ++ e2, ?_, ?_, ?_⟩
    · rw [hstep, he2]
      congr 1
      simp
    · intro r hr
      rcases List.mem_append.mp hr with h1 | h2
      · have := he1m r h1
        subst this
        exact ⟨rfl, rfl, rfl, ds, d, [], rfl, rfl, rfl⟩
      · obtain ⟨h1, h2, h3, ds', d', es', ha, hb, hsplit⟩ := he2m r h2
        exact ⟨h1, h2, h3, ds', d', es' ++ [d], ha, hb, by rw [hsplit]; simp⟩
    · intro ds' d' es' hsplit
      rcases List.eq_nil_or_concat es' with rfl | ⟨es'', last, rfl⟩
      · have hkey : ds' = ds ∧ d' = d := by
          have h2 := List.append_inj hsplit (by
            have := congrArg List.length hsplit
            simp at this
            omega)
          exact ⟨h2.1.symm, by
            have := h2.2
            simp at this
            exact this.symm⟩
        rw [hkey.1, hkey.2, ← List.append_assoc]
        exact findRow_isSome_mono e2 he1f
      · have hsplit' : (ds' ++ d' :: es'') ++ [last] = ds ++ [d] := by
          rw [List.append_assoc]
          simpa using hsplit.symm
        have hsplit2 : ds = ds' ++ d' :: es'' := by
          have h2 := List.append_inj hsplit' (by
            have hlen := congrArg List.length hsplit'
            simp only [List.length_append, List.length_cons, List.length_nil] at hlen ⊢
            omega)
          exact h2.1.symm
        have := he2f ds' d' es'' hsplit2
        rwa [show ({ s with files := s.files ++ e1 } : DState).files = s.files ++ e1
          from rfl, List.append_assoc] at this

theorem mkdirAll_spec (cs : List String) (s : DState) (hw : wfComps cs) :
    ∃ extra, mkdirAll s (joinComps cs)
        = .ok { s with files := s.files ++ extra } ∧
      (∀ r ∈ extra, r.SizeBytes = -1 ∧ r.Contents = [] ∧ r.Location = "" ∧
        ∃ ds d es, r.DirName = joinComps ds ∧ r.BaseName = d ∧ cs = ds ++ d :: es) ∧
      (∀ ds d es, cs = ds ++ d :: es →
        (findRow (s.files ++ extra) (joinComps ds) d).isSome) := by
  apply mkdirAllF_spec cs ((joinComps cs).length + 1) s hw
  have := joinComps_length cs
  omega

/-- The modification-time stamping step at the head of `writeFileInfo`. -/
def stampRow (now : Nat) (fi : fileInfo) : fileInfo :=
  if fi.ModifiedAt = 0 then { fi with ModifiedAt := now } else fi

@[simp] theorem stampRow_DirName (now : Nat) (fi : fileInfo) :
    (stampRow now fi).DirName = fi.DirName := by
  unfold stampRow
  split <;> rfl

@[simp] theorem stampRow_BaseName (now : Nat) (fi : fileInfo) :
    (stampRow now fi).BaseName = fi.BaseName := by
  unfold stampRow
  split <;> rfl

@[simp] theorem stampRow_SizeBytes (now : Nat) (fi : fileInfo) :
    (stampRow now fi).SizeBytes = fi.SizeBytes := by
  unfold stampRow
  split <;> rfl

@[simp] theorem stampRow_Contents (now : Nat) (fi : fileInfo) :
    (stampRow now fi).Contents = fi.Contents := by
  unfold stampRow
  split <;> rfl

@[simp] theorem stampRow_Location (now : Nat) (fi : fileInfo) :
    (stampRow now fi).Location = fi.Location := by
  unfold stampRow
  split <;> rfl

theorem writeFileInfo_eq (s : DState) (fi : fileInfo) :
    writeFileInfo s fi
      = mkdirAll { s with files := upsertRow s.files (stampRow s.clock fi) }
          (stampRow s.clock fi).DirName := by
  unfold writeFileInfo stampRow
  rfl

theorem writeFileInfo_spec (s : DState) (fi : fileInfo) (cs : List String)
    (hdir : fi.DirName = joinComps cs) (hw : wfComps cs) :
    ∃ extra,
      writeFileInfo s fi
        = .ok { s with files := upsertRow s.files (stampRow s.clock fi) ++ extra } ∧
      (∀ r ∈ extra, r.SizeBytes = -1 ∧ r.Contents = [] ∧ r.Location = "" ∧
        ∃ ds d es, r.DirName = joinComps ds ∧ r.BaseName = d ∧ cs = ds ++ d :: es) ∧
      (∀ ds d es, cs = ds ++ d :: es →
        (findRow (upsertRow s.files (stampRow s.clock fi) ++ extra)
          (joinComps ds) d).isSome) := by
  rw [writeFileInfo_eq]
  have hd2 : (stampRow s.clock fi).DirName = joinComps cs := by
    rw [stampRow_DirName, hdir]
  rw [hd2]
  obtain ⟨extra, h1, h2, h3⟩ :=
    mkdirAll_spec cs { s with files := upsertRow s.files (stampRow s.clock fi) } hw
  exact ⟨extra, h1, h2, h3⟩

@[simp] theorem deleteBlobs_files (s : DState) (fi : fileInfo) :
    (deleteBlobs s fi).files = s.files := by
  unfold deleteBlobs swiftDeleteAll
  split <;> rfl

@[simp] theorem deleteBlobs_segments (s : DState) (fi : fileInfo) :
    (deleteBlobs s fi).segments = s.segments := by
  unfold deleteBlobs swiftDeleteAll
  split <;> rfl

@[simp] theorem deleteBlobs_swWriteCalls (s : DState) (fi : fileInfo) :
    (deleteBlobs s fi).swWriteCalls = s.swWriteCalls := by
  unfold deleteBlobs swiftDeleteAll
  split <;> rfl

@[simp] theorem deleteBlobs_randCtr (s : DState) (fi : fileInfo) :
    (deleteBlobs s fi).randCtr = s.randCtr := by
  unfold deleteBlobs swiftDeleteAll
  split <;> rfl

@[simp] theorem deleteBlobs_clock (s : DState) (fi : fileInfo) :
    (deleteBlobs s fi).clock = s.clock := by
  unfold deleteBlobs swiftDeleteAll
  split <;> rfl

@[simp] theorem deleteBlobs_objPfx (s : DState) (fi : fileInfo) :
    (deleteBlobs s fi).objPfx = s.objPfx := by
  unfold deleteBlobs swiftDeleteAll
  split <;> rfl

@[simp] theorem deleteBlobs_delLog (s : DState) (fi : fileInfo) :
    (deleteBlobs s fi).delLog = s.delLog := by
  unfold deleteBlobs swiftDeleteAll
  split <;> rfl

/-! ### Lemmas about the modelled object store -/

theorem swift_find_map_self (objs : List (String × swiftObj)) (p : String) (o : swiftObj)
    (h : (objs.find? (fun e => e.1 == p)).isSome) :
    (objs.map (fun e => if e.1 == p then (p, o) else e)).find? (fun e => e.1 == p)
      = some (p, o) := by
  induction objs with
  | nil => simp at h
  | cons e rest ih =>
    rw [List.map_cons]
    by_cases he : e.1 = p
    · rw [if_pos (by simpa using he)]
      exact List.find?_cons_of_pos _ (by simp)
    · rw [if_neg (by simpa using he)]
      rw [List.find?_cons_of_neg _ (by simpa using he)]
      apply ih
      rwa [List.find?_cons_of_neg _ (by simpa using he)] at h

theorem swiftLookup_store_self (objs : List (String × swiftObj)) (p : String) (o : swiftObj) :
    swiftLookup (swiftStore objs p o) p = some o := by
  unfold swiftStore
  split
  case isTrue h =>
    unfold swiftLookup
    rw [swift_find_map_self objs p o h]
    rfl
  case isFalse h =>
    unfold swiftLookup
    rw [List.find?_append]
    have hnone : objs.find? (fun e => e.1 == p) = none := by
      cases hT : objs.find? (fun e => e.1 == p) with
      | none => rfl
      | some r => rw [hT] at h; simp at h
    rw [hnone, List.find?_cons_of_pos _ (by simp)]
    rfl

theorem swiftResolve_plain {objs : List (String × swiftObj)} {p : String} {d : List Byte}
    (h : swiftLookup objs p = some (.plain d)) : swiftResolve objs p = some d := by
  unfold swiftResolve
  rw [h]

theorem swiftRead_plain {s : DState} {p : String} {d : List Byte}
    (h : swiftLookup s.swObjects p = some (.plain d)) (offset : Nat) :
    swiftRead s p offset = .ok (d.drop offset) := by
  unfold swiftRead
  rw [swiftResolve_plain h]

/-! ### Unfolding and utility lemmas for the driver operations -/

theorem randLoc_ne_empty (n : Nat) : randLoc n ≠ "" := by
  intro h
  have := congrArg String.data h
  rw [randLoc, String.data_append] at this
  simp at this

theorem wfComps_append_single {cs : List String} {c : String}
    (h1 : wfComps cs) (hc : wfComp c) : wfComps (cs ++ [c]) := by
  intro x hx
  rcases List.mem_append.mp hx with h | h
  · exact h1 x h
  · rw [List.mem_singleton.mp h]
    exact hc

theorem wfComps_of_append_left {cs es : List String} (h : wfComps (cs ++ es)) :
    wfComps cs := fun x hx => h x (List.mem_append_left _ hx)

theorem wfComps_of_append_right {cs es : List String} (h : wfComps (cs ++ es)) :
    wfComps es := fun x hx => h x (List.mem_append_right _ hx)

theorem joinComps_lt_of_suffix : ∀ (ds es : List String), es ≠ [] → wfComps es →
    (joinComps ds).length < (joinComps (ds ++ es)).length := by
  intro ds es
  induction es using List.reverseRecOn generalizing ds with
  | nil => intro h _; exact absurd rfl h
  | append_singleton fs f ih =>
    intro _ hwf
    have hf : wfComp f := hwf f (by simp)
    have hflen : 1 ≤ f.length := by
      have : f.data ≠ [] := fun h => hf.1 (String.ext h)
      have := List.length_pos.mpr this
      exact this
    have hs : ("/" : String).length = 1 := by decide
    rw [← List.append_assoc]
    rcases List.eq_nil_or_concat (ds ++ fs) with hnil | ⟨_, _, hconcat⟩
    · rw [hnil]
      have hds : ds = [] := by
        rcases List.append_eq_nil.mp hnil with ⟨h1, _⟩
        exact h1
      rw [hds]
      show (joinComps []).length < ("/" ++ f).length
      rw [String.length_append, hs]
      have : (joinComps []).length = 1 := by decide
      omega
    · have hne : ds ++ fs ≠ [] := by rw [hconcat]; simp
      rw [joinComps_append_single _ _ hne, String.length_append, String.length_append, hs]
      rcases List.eq_nil_or_concat fs with rfl | ⟨_, _, hfs⟩
      · rw [List.append_nil]
        omega
      · have := ih ds (by rw [hfs]; simp) (wfComps_of_append_left hwf)
        omega

theorem readFileInfo_join (s : DState) (cs : List String) (c : String)
    (hw : wfComps cs) (hc : wfComp c) :
    readFileInfo s (joinComps (cs ++ [c])) = findRow s.files (joinComps cs) c := by
  unfold readFileInfo
  rw [goDir_joinComps cs c hw hc, goBase_joinComps cs c hc]

theorem Stat_ne_root (s : DState) (p : String) (h : p ≠ "/") :
    Stat s p = match readFileInfo s p with
               | none => .error (.pathNotFound p)
               | some fi => .ok fi := by
  unfold Stat
  rw [if_neg h]

/-- The tail of `PutContent` (everything after the previous blob has been
removed), written with the tier decision as an outer case split; used only
to state unfolding lemmas about `PutContent`. -/
def putPhase2 (s1 : DState) (fullPath : String) (contents : List Byte) :
    Except Err DState :=
  if maxInlineSizeBytes < contents.length then
    let fi : fileInfo :=
      { DirName := goDir fullPath, BaseName := goBase fullPath,
        SizeBytes := (contents.length : Int), ModifiedAt := 0,
        Contents := [], Location := randLoc s1.randCtr }
    match writeFileInfo { s1 with randCtr := s1.randCtr + 1 } fi with
    | .error e => .error e
    | .ok s3 => .ok (swiftWrite s3 (prependPfx s3.objPfx (objectPath fi)) contents).1
  else
    let fi : fileInfo :=
      { DirName := goDir fullPath, BaseName := goBase fullPath,
        SizeBytes := (contents.length : Int), ModifiedAt := 0,
        Contents := contents, Location := "" }
    match writeFileInfo s1 fi with
    | .error e => .error e
    | .ok s3 => .ok s3

theorem PutContent_phase2 (s : DState) (p : String) (contents : List Byte) :
    PutContent s p contents
      = putPhase2 (match readFileInfo s p with
                   | some fi => deleteBlobs s fi
                   | none => s) p contents := by
  unfold PutContent putPhase2
  by_cases hbig : maxInlineSizeBytes < contents.length
  · simp only [if_pos hbig]
  · simp only [if_neg hbig]

theorem GetContent_none {s : DState} {p : String} (h : readFileInfo s p = none) :
    GetContent s p = .error (.pathNotFound p) := by
  unfold GetContent
  rw [h]

theorem GetContent_some {s : DState} {p : String} {fi : fileInfo}
    (h : readFileInfo s p = some fi) :
    GetContent s p =
      if fi.IsDir then .error (.pathNotFound p)
      else if fi.SizeBytes = 0 then .ok []
      else if fi.Contents.length > 0 then .ok fi.Contents
      else match swiftRead s (prependPfx s.objPfx (objectPath fi)) 0 with
           | .error e => .error (setReportedPath e (fiPath fi))
           | .ok data => .ok data := by
  unfold GetContent
  rw [h]

theorem Stat_some {s : DState} {p : String} {fi : fileInfo} (hne : p ≠ "/")
    (h : readFileInfo s p = some fi) : Stat s p = .ok fi := by
  unfold Stat
  rw [if_neg hne, h]

theorem Stat_none {s : DState} {p : String} (hne : p ≠ "/")
    (h : readFileInfo s p = none) : Stat s p = .error (.pathNotFound p) := by
  unfold Stat
  rw [if_neg hne, h]

theorem Delete_none {s : DState} {p : String} (h : readFileInfo s p = none) :
    Delete s p = .ok s := by
  unfold Delete
  rw [h]

theorem Delete_some {s : DState} {p : String} {fi : fileInfo}
    (h : readFileInfo s p = some fi) : Delete s p = deleteDownwards s fi := by
  unfold Delete
  rw [h]

theorem URLFor_none {s : DState} {p : String} (h : readFileInfo s p = none) :
    URLFor s p = .error (.pathNotFound p) := by
  unfold URLFor
  rw [h]

theorem URLFor_some {s : DState} {p : String} {fi : fileInfo}
    (h : readFileInfo s p = some fi) :
    URLFor s p = if fi.Location = "" then .error .unsupportedMethod
                 else .ok (swiftTempURL (prependPfx s.objPfx (objectPath fi))) := by
  unfold URLFor
  rw [h]

/-- The parent-chain invariant of the data model: every row except one
directly under the root has a row at its parent directory's key. -/
def parentPresent (T : List fileInfo) (r : fileInfo) : Prop :=
  r.DirName = "/" ∨ (findRow T (goDir r.DirName) (goBase r.DirName)).isSome

/-- Every row of the table has its parent directory's row present,
transitively up to the root. -/
def parentClosed (T : List fileInfo) : Prop := ∀ r ∈ T, parentPresent T r

theorem upsertRow_isSome_mono {T : List fileInfo} (fi : fileInfo) {d b : String}
    (h : (findRow T d b).isSome) : (findRow (upsertRow T fi) d b).isSome := by
  by_cases hk : d = fi.DirName ∧ b = fi.BaseName
  · rw [hk.1, hk.2, upsertRow_find_self]
    rfl
  · rw [upsertRow_find_other T fi d b hk]
    exact h

theorem wf_of_split {cs ds es : List String} {d : String}
    (hsplit : cs = ds ++ d :: es) (hw : wfComps cs) : wfComps ds ∧ wfComp d := by
  subst hsplit
  exact ⟨wfComps_of_append_left hw, hw d (by simp)⟩

theorem writeFileInfo_table (s2 : DState) (fi : fileInfo) (cs : List String) (c : String)
    (hw : wfComps cs) (hc : wfComp c)
    (hdn : fi.DirName = joinComps cs) (hbn : fi.BaseName = c) :
    ∃ s3, writeFileInfo s2 fi = .ok s3 ∧
      s3.segments = s2.segments ∧ s3.swObjects = s2.swObjects ∧
      s3.swWriteCalls = s2.swWriteCalls ∧ s3.randCtr = s2.randCtr ∧
      s3.clock = s2.clock ∧ s3.objPfx = s2.objPfx ∧ s3.delLog = s2.delLog ∧
      findRow s3.files (joinComps cs) c = some (stampRow s2.clock fi) ∧
      (parentClosed s2.files → parentClosed s3.files) ∧
      (∀ d b, ¬(d = joinComps cs ∧ b = c) → (findRow s2.files d b).isSome →
        findRow s3.files d b = findRow s2.files d b) ∧
      (∀ r ∈ s3.files, r = stampRow s2.clock fi ∨ r ∈ s2.files ∨
        (r.SizeBytes = -1 ∧ r.Contents = [] ∧ r.Location = "")) := by
  obtain ⟨extra, h1, h2, h3⟩ := writeFileInfo_spec s2 fi cs hdn hw
  have hdn' : (stampRow s2.clock fi).DirName = joinComps cs := by
    rw [stampRow_DirName, hdn]
  have hbn' : (stampRow s2.clock fi).BaseName = c := by
    rw [stampRow_BaseName, hbn]
  have hupfind : findRow (upsertRow s2.files (stampRow s2.clock fi))
      (joinComps cs) c = some (stampRow s2.clock fi) := by
    rw [← hdn', ← hbn']
    exact upsertRow_find_self _ _
  refine ⟨_, h1, rfl, rfl, rfl, rfl, rfl, rfl, rfl, ?_, ?_, ?_, ?_⟩
  · show findRow (upsertRow s2.files (stampRow s2.clock fi) ++ extra)
        (joinComps cs) c = some (stampRow s2.clock fi)
    rw [findRow_append_left extra (by rw [hupfind]; rfl)]
    exact hupfind
  · intro hpc r hr
    rcases List.mem_append.mp hr with hup | hex
    · rcases upsertRow_mem hup with rfl | hmem
      · unfold parentPresent
        rcases List.eq_nil_or_concat cs with hnil | ⟨cs', c', hcc⟩
        · left
          rw [hdn', hnil]
          rfl
        · right
          obtain ⟨hwcs', hwc'⟩ := @wf_of_split cs cs' [] c' (by rw [hcc]; simp) hw
          rw [hdn', hcc]
          rw [show cs'.concat c' = cs' ++ [c'] by simp]
          rw [goDir_joinComps cs' c' hwcs' hwc', goBase_joinComps cs' c' hwc']
          exact h3 cs' c' [] (by rw [hcc]; simp)
      · have hp := hpc r hmem
        unfold parentPresent at hp ⊢
        rcases hp with h | h
        · exact Or.inl h
        · exact Or.inr (findRow_isSome_mono extra (upsertRow_isSome_mono _ h))
    · obtain ⟨hsz, hct, hloc, ds, d, es, hdir, hbase, hsplit⟩ := h2 r hex
      unfold parentPresent
      rcases List.eq_nil_or_concat ds with hnil | ⟨ds', d', hdd⟩
      · left
        rw [hdir, hnil]
        rfl
      · right
        have hds : ds = ds' ++ [d'] := by rw [hdd]; simp
        obtain ⟨hwds, hwd⟩ := wf_of_split hsplit hw
        rw [hds] at hwds
        rw [hdir, hds, goDir_joinComps ds' d' (wfComps_of_append_left hwds)
          (hwds d' (by simp)), goBase_joinComps ds' d' (hwds d' (by simp))]
        exact h3 ds' d' (d :: es) (by rw [hsplit, hds]; simp)
  · intro d b hne hsome
    show findRow (upsertRow s2.files (stampRow s2.clock fi) ++ extra) d b
        = findRow s2.files d b
    have hne' : ¬(d = (stampRow s2.clock fi).DirName ∧ b = (stampRow s2.clock fi).BaseName) := by
      intro hk
      exact hne ⟨by rw [hk.1, hdn'], by rw [hk.2, hbn']⟩
    rw [findRow_append_left extra (upsertRow_isSome_mono _ hsome),
      upsertRow_find_other s2.files _ d b hne']
  · intro r hr
    rcases List.mem_append.mp hr with hup | hex
    · rcases upsertRow_mem hup with rfl | hmem
      · exact Or.inl rfl
      · exact Or.inr (Or.inl hmem)
    · obtain ⟨hsz, hct, hloc, _⟩ := h2 r hex
      exact Or.inr (Or.inr ⟨hsz, hct, hloc⟩)

theorem putPhase2_spec (s1 : DState) (cs : List String) (c : String) (content : List Byte)
    (hw : wfComps cs) (hc : wfComp c) :
    ∃ s', putPhase2 s1 (joinComps (cs ++ [c])) content = .ok s' ∧
      GetContent s' (joinComps (cs ++ [c])) = .ok content ∧
      (∃ d, Stat s' (joinComps (cs ++ [c])) = .ok d ∧ d.SizeBytes = (content.length : Int)) ∧
      s'.segments = s1.segments ∧
      (content.length ≤ maxInlineSizeBytes → s'.swWriteCalls = s1.swWriteCalls) ∧
      (maxInlineSizeBytes < content.length →
        s'.swWriteCalls = s1.swWriteCalls + 1 ∧
        ∃ fi', readFileInfo s' (joinComps (cs ++ [c])) = some fi' ∧
          fi'.Location = randLoc s1.randCtr ∧ fi'.Contents = [] ∧ fi'.Location ≠ "") ∧
      (parentClosed s1.files → parentClosed s'.files) ∧
      (∀ d b, ¬(d = joinComps cs ∧ b = c) → (findRow s1.files d b).isSome →
        findRow s'.files d b = findRow s1.files d b) := by
  have hwfull : wfComps (cs ++ [c]) := wfComps_append_single hw hc
  have hpne : joinComps (cs ++ [c]) ≠ "/" := joinComps_ne_root _ hwfull (by simp)
  have hgd : goDir (joinComps (cs ++ [c])) = joinComps cs := goDir_joinComps cs c hw hc
  have hgb : goBase (joinComps (cs ++ [c])) = c := goBase_joinComps cs c hc
  have hlen256 : maxInlineSizeBytes = 256 := rfl
  by_cases hbig : maxInlineSizeBytes < content.length
  · -- external tier
    obtain ⟨s3, h1, hseg, hobj, hcnt, hrnd, hclk, hpfx, hlog, hfind, hpcl, hoth, _⟩ :=
      writeFileInfo_table { s1 with randCtr := s1.randCtr + 1 }
        { DirName := goDir (joinComps (cs ++ [c])),
          BaseName := goBase (joinComps (cs ++ [c])),
          SizeBytes := (content.length : Int), ModifiedAt := 0,
          Contents := [], Location := randLoc s1.randCtr }
        cs c hw hc hgd hgb
    have hread : readFileInfo
        (swiftWrite s3 (prependPfx s3.objPfx (randLoc s1.randCtr ++ "/content")) content).1
        (joinComps (cs ++ [c]))
        = some { DirName := goDir (joinComps (cs ++ [c])),
                 BaseName := goBase (joinComps (cs ++ [c])),
                 SizeBytes := (content.length : Int), ModifiedAt := s1.clock,
                 Contents := [], Location := randLoc s1.randCtr } := by
      rw [readFileInfo_join _ cs c hw hc]
      exact hfind
    refine ⟨(swiftWrite s3 (prependPfx s3.objPfx (randLoc s1.randCtr ++ "/content"))
        content).1, ?_, ?_, ⟨_, Stat_some hpne hread, rfl⟩, ?_, ?_, ?_, ?_, ?_⟩
    · simp only [putPhase2]
      rw [if_pos hbig, h1]
      rfl
    · rw [GetContent_some hread]
      rw [if_neg (show ¬fileInfo.IsDir _ from by
        simp only [fileInfo.IsDir]
        omega)]
      rw [if_neg (show ¬((content.length : Int) = 0) from by
        rw [hlen256] at hbig
        omega)]
      rw [if_neg (show ¬(List.length ([] : List Byte) > 0) from by simp)]
      have hlook : swiftLookup
          (swiftWrite s3 (prependPfx s3.objPfx (randLoc s1.randCtr ++ "/content"))
            content).1.swObjects
          (prependPfx s3.objPfx (randLoc s1.randCtr ++ "/content"))
          = some (.plain content) :=
        swiftLookup_store_self s3.swObjects _ _
      have hrd := swiftRead_plain hlook 0
      have hpatheq : (prependPfx
            (swiftWrite s3 (prependPfx s3.objPfx (randLoc s1.randCtr ++ "/content"))
              content).1.objPfx
            (objectPath { DirName := goDir (joinComps (cs ++ [c])),
                          BaseName := goBase (joinComps (cs ++ [c])),
                          SizeBytes := (content.length : Int), ModifiedAt := s1.clock,
                          Contents := [], Location := randLoc s1.randCtr }))
          = prependPfx s3.objPfx (randLoc s1.randCtr ++ "/content") := rfl
      rw [hpatheq, hrd, List.drop_zero]
    · exact hseg
    · intro h
      rw [hlen256] at hbig
      rw [hlen256] at h
      omega
    · intro _
      refine ⟨?_, ?_⟩
      · show s3.swWriteCalls + 1 = s1.swWriteCalls + 1
        rw [hcnt]
      · exact ⟨_, hread, rfl, rfl, randLoc_ne_empty _⟩
    · intro hp
      exact hpcl hp
    · intro d b hne hsome
      exact hoth d b hne hsome
  · -- inline tier
    obtain ⟨s3, h1, hseg, hobj, hcnt, hrnd, hclk, hpfx, hlog, hfind, hpcl, hoth, _⟩ :=
      writeFileInfo_table s1
        { DirName := goDir (joinComps (cs ++ [c])),
          BaseName := goBase (joinComps (cs ++ [c])),
          SizeBytes := (content.length : Int), ModifiedAt := 0,
          Contents := content, Location := "" }
        cs c hw hc hgd hgb
    have hread : readFileInfo s3 (joinComps (cs ++ [c]))
        = some { DirName := goDir (joinComps (cs ++ [c])),
                 BaseName := goBase (joinComps (cs ++ [c])),
                 SizeBytes := (content.length : Int), ModifiedAt := s1.clock,
                 Contents := content, Location := "" } := by
      rw [readFileInfo_join _ cs c hw hc]
      exact hfind
    refine ⟨s3, ?_, ?_, ⟨_, Stat_some hpne hread, rfl⟩, hseg, ?_, ?_, hpcl, hoth⟩
    · simp only [putPhase2]
      rw [if_neg hbig, h1]
    · rw [GetContent_some hread]
      rw [if_neg (show ¬fileInfo.IsDir _ from by
        simp only [fileInfo.IsDir]
        omega)]
      by_cases hz : content.length = 0
      · rw [if_pos (show ((content.length : Int) = 0) from by omega)]
        rw [List.length_eq_zero.mp hz]
      · rw [if_neg (show ¬((content.length : Int) = 0) from by omega)]
        rw [if_pos (show content.length > 0 from by omega)]
    · intro _
      exact hcnt
    · intro h
      exact absurd h hbig

/-! ### Claim theorems -/

/-- C1: for every byte string `content` and clean absolute path, `put` then
`get` returns exactly the original bytes and `stat` reports size
`len(content)`; when `len(content) ≤ 256` the Object Store Adapter receives
zero write calls (the content is inlined in the FileRecord); when
`len(content) > 256` at least one Object Store Adapter write call occurs
and the content is stored externally under the freshly drawn random
location, which no pre-existing record uses. -/
theorem putContent_roundtrip (s : DState) (cs : List String) (c : String)
    (content : List Byte) (hw : wfComps cs) (hc : wfComp c)
    (hfresh : ∀ r ∈ s.files, r.Location ≠ randLoc s.randCtr) :
    ∃ s', PutContent s (joinComps (cs ++ [c])) content = .ok s' ∧
      GetContent s' (joinComps (cs ++ [c])) = .ok content ∧
      (∃ d, Stat s' (joinComps (cs ++ [c])) = .ok d ∧
        d.SizeBytes = (content.length : Int)) ∧
      (content.length ≤ maxInlineSizeBytes → s'.swWriteCalls = s.swWriteCalls) ∧
      (maxInlineSizeBytes < content.length →
        s.swWriteCalls + 1 ≤ s'.swWriteCalls ∧
        ∃ fi', readFileInfo s' (joinComps (cs ++ [c])) = some fi' ∧
          fi'.Location ≠ "" ∧ fi'.Location = randLoc s.randCtr ∧ fi'.Contents = [] ∧
          ∀ r ∈ s.files, r.Location ≠ fi'.Location) := by
  rw [PutContent_phase2]
  cases hrd : readFileInfo s (joinComps (cs ++ [c])) with
  | none =>
    obtain ⟨s', h1, hget, hstat, _, hsmall, hbigc, _, _⟩ :=
      putPhase2_spec s cs c content hw hc
    refine ⟨s', h1, hget, hstat, hsmall, ?_⟩
    intro hb
    obtain ⟨hcount, fi', hfi, hloc, hcont, hlocne⟩ := hbigc hb
    refine ⟨by omega, fi', hfi, hlocne, hloc, hcont, ?_⟩
    rw [hloc]
    exact hfresh
  | some fi =>
    obtain ⟨s', h1, hget, hstat, _, hsmall, hbigc, _, _⟩ :=
      putPhase2_spec (deleteBlobs s fi) cs c content hw hc
    have hfs : (deleteBlobs s fi).swWriteCalls = s.swWriteCalls := by simp
    have hfr : (deleteBlobs s fi).randCtr = s.randCtr := by simp
    have hff : (deleteBlobs s fi).files = s.files := by simp
    refine ⟨s', h1, hget, hstat, ?_, ?_⟩
    · intro h
      rw [hsmall h, hfs]
    · intro hb
      obtain ⟨hcount, fi', hfi, hloc, hcont, hlocne⟩ := hbigc hb
      rw [hfr] at hloc
      refine ⟨by omega, fi', hfi, hlocne, hloc, hcont, ?_⟩
      rw [hloc]
      exact hfresh

instance (c : String) : Decidable (wfComp c) := by
  unfold wfComp
  infer_instance

instance (l : List String) : Decidable (wfComps l) := by
  unfold wfComps
  exact List.decidableBAll _ l

/-- An empty driver state used by the concrete instantiations. -/
def c1S0 : DState :=
  { files := [], segments := [], swObjects := [], swWriteCalls := 0,
    randCtr := 0, clock := 1, objPfx := "p", delLog := [] }

theorem putContent_roundtrip_witness :
    ∃ s', PutContent c1S0 (joinComps (["a"] ++ ["b"])) [1, 2, 3] = .ok s' ∧
      GetContent s' (joinComps (["a"] ++ ["b"])) = .ok [1, 2, 3] := by
  obtain ⟨s', h1, h2, _⟩ :=
    putContent_roundtrip c1S0 ["a"] "b" [1, 2, 3] (by decide) (by decide)
      (by intro r hr; exact absurd hr (by simp [c1S0]))
  exact ⟨s', h1, h2⟩

/-- The driver state for the C6 instantiations: one inline-tier file at
"/a" and nothing else. -/
def c6S : DState :=
  { files := [{ DirName := "/", BaseName := "a", SizeBytes := 3, ModifiedAt := 1,
                Contents := [1, 2, 3], Location := "" }],
    segments := [], swObjects := [], swWriteCalls := 0,
    randCtr := 0, clock := 1, objPfx := "p", delLog := [] }

/-- C6 counterexample: at a path with no record at all, `urlFor` returns
PathNotFound, not the UnsupportedMethod error the claim states. -/
theorem urlFor_missing_counterexample :
    URLFor c6S "/x" = .error (.pathNotFound "/x") ∧
    ¬ URLFor c6S "/x" = .error .unsupportedMethod := by
  refine ⟨rfl, ?_⟩
  intro h
  exact absurd (show Except.error (Err.pathNotFound "/x")
    = (Except.error Err.unsupportedMethod : Except Err String) from h) (by simp)

/-- C6 (amended): `urlFor` succeeds exactly when a record with an
external location exists at the path; a record without external location
(inline tier or directory) yields UnsupportedMethod; a missing record
yields PathNotFound (not UnsupportedMethod). -/
theorem urlFor_cases (s : DState) (p : String) :
    (readFileInfo s p = none → URLFor s p = .error (.pathNotFound p)) ∧
    (∀ fi, readFileInfo s p = some fi →
      ((fi.Location = "" → URLFor s p = .error .unsupportedMethod) ∧
       (fi.Location ≠ "" → URLFor s p
         = .ok (swiftTempURL (prependPfx s.objPfx (objectPath fi)))))) := by
  constructor
  · intro h
    exact URLFor_none h
  · intro fi h
    constructor
    · intro hl
      rw [URLFor_some h, if_pos hl]
    · intro hl
      rw [URLFor_some h, if_neg hl]

theorem urlFor_cases_witness :
    URLFor c6S "/x" = .error (.pathNotFound "/x") ∧
    URLFor c6S "/a" = .error .unsupportedMethod := by
  refine ⟨(urlFor_cases c6S "/x").1 rfl, ?_⟩
  exact (((urlFor_cases c6S "/a").2
    { DirName := "/", BaseName := "a", SizeBytes := 3, ModifiedAt := 1,
      Contents := [1, 2, 3], Location := "" } rfl).1) rfl

/-! ### The segmented writer (`plusWriter`) -/

/-- Insertion into a list sorted by segment number (used to model the SQL
`ORDER BY number`). -/
def insertByNumber (r : segRow) : List segRow → List segRow
  | [] => [r]
  | x :: xs => if r.Number ≤ x.Number then r :: x :: xs else x :: insertByNumber r xs

/-- Sort segment rows ascending by number. -/
def sortByNumber (l : List segRow) : List segRow := l.foldr insertByNumber []

/-- `readSegmentInfo` of the source: the segment rows for a location,
ordered ascending by number, paired with the configured object prefix. -/
def readSegmentInfo (s : DState) (location : String) : List plusSegment :=
  if location = "" then []
  else
    (sortByNumber (s.segments.filter (fun r => r.Location == location))).map
      (fun r => { Pfx := s.objPfx, Location := location, Number := r.Number,
                  SizeBytes := r.SizeBytes, Hash := r.Hash })

/-- The `INSERT INTO segments` of `plusWriter.Write`: the primary key
(location, number) rejects duplicates. -/
def segInsert (rows : List segRow) (r : segRow) : Except Err (List segRow) :=
  if rows.any (fun x => x.Location == r.Location && x.Number == r.Number) then
    .error .dupSegment
  else .ok (rows ++ [r])

/-- The state of the source's `plusWriter`. -/
structure plusWriter where
  cancelled : Bool
  closed : Bool
  committed : Bool
  fullPath : String
  location : String
  segments : List plusSegment
deriving DecidableEq, Repr

/-- `newPlusWriter` of the source: an existing record is deleted first
unless appending; a fresh random location is drawn when the file is first
created (or has no location); when appending to an existing file the
existing segment rows seed the in-memory list. -/
def newPlusWriter (s : DState) (fullPath : String) (appendFlag : Bool) :
    Except Err (DState × plusWriter) :=
  match readFileInfo s fullPath with
  | some fi =>
    if appendFlag then
      let needNew := fi.Location = ""
      let loc := if needNew then randLoc s.randCtr else fi.Location
      let s1 := if needNew then { s with randCtr := s.randCtr + 1 } else s
      .ok (s1, { cancelled := false, closed := false, committed := false,
                 fullPath := fullPath, location := loc,
                 segments := readSegmentInfo s1 loc })
    else
      match deleteDownwards s fi with
      | .error e => .error e
      | .ok s1 =>
        .ok ({ s1 with randCtr := s1.randCtr + 1 },
             { cancelled := false, closed := false, committed := false,
               fullPath := fullPath, location := randLoc s1.randCtr, segments := [] })
  | none =>
    .ok ({ s with randCtr := s.randCtr + 1 },
         { cancelled := false, closed := false, committed := false,
           fullPath := fullPath, location := randLoc s.randCtr, segments := [] })

/-- `plusWriter.Write` of the source: choose the next segment number
(1 if none yet, else last+1), upload the buffer to the object store,
record the segment in memory and in the `segments` table.  Note: no
terminal-state check is performed.  Returns the byte count and the
error of the row insert, if any. -/
def pwWrite (s : DState) (w : plusWriter) (buf : List Byte) :
    DState × plusWriter × Nat × Option Err :=
  let num := match w.segments.getLast? with
             | some lastSeg => lastSeg.Number + 1
             | none => 1
  let sg : plusSegment :=
    { Pfx := s.objPfx, Location := w.location, Number := num,
      SizeBytes := buf.length, Hash := "" }
  let wr := swiftWrite s (segObjectPath sg) buf
  let sg := { sg with Hash := wr.2 }
  let w1 := { w with segments := w.segments ++ [sg] }
  match segInsert wr.1.segments
      { Location := sg.Location, Number := sg.Number,
        SizeBytes := sg.SizeBytes, Hash := sg.Hash } with
  | .error e => (wr.1, w1, buf.length, some e)
  | .ok rows => ({ wr.1 with segments := rows }, w1, buf.length, none)

/-- `plusWriter.Size` of the source: the sum of the recorded segment
sizes. -/
def pwSize (w : plusWriter) : Int :=
  w.segments.foldl (fun n sg => n + (sg.SizeBytes : Int)) 0

/-- `plusWriter.Commit` of the source: after the terminal-state checks,
assemble the manifest for the ordered segment list and upsert the
FileRecord (size = segment-size total, external location, no inline
content). -/
def pwCommit (s : DState) (w : plusWriter) : DState × plusWriter × Option Err :=
  if w.closed then (s, w, some .alreadyClosed)
  else if w.cancelled then (s, w, some .alreadyCancelled)
  else if w.committed then (s, w, some .alreadyCommitted)
  else
    let fi : fileInfo :=
      { DirName := goDir w.fullPath, BaseName := goBase w.fullPath,
        SizeBytes := pwSize w, ModifiedAt := 0, Contents := [],
        Location := w.location }
    let s1 := swiftWriteSLO s (prependPfx s.objPfx (objectPath fi)) w.segments
    match writeFileInfo s1 fi with
    | .error e => (s1, w, some e)
    | .ok s2 => (s2, { w with committed := true }, none)

/-- `plusWriter.Cancel` of the source: only the `closed` flag is checked
(and it is never set anywhere); the writer is marked cancelled, the whole
path is deleted (a no-op when no record exists), and the in-memory
segment list is discarded. -/
def pwCancel (s : DState) (w : plusWriter) : DState × plusWriter × Option Err :=
  if w.closed then (s, w, some .alreadyClosed)
  else
    let w1 := { w with cancelled := true }
    match Delete s w1.fullPath with
    | .error e => (s, { w1 with segments := [] }, some e)
    | .ok s1 => (s1, { w1 with segments := [] }, none)

/-- `plusWriter.Close` of the source: commits unless a terminal state was
already reached; the `closed` flag is checked but never set. -/
def pwClose (s : DState) (w : plusWriter) : DState × plusWriter × Option Err :=
  if w.closed then (s, w, some .alreadyClosed)
  else if ¬ w.committed ∧ ¬ w.cancelled then pwCommit s w
  else (s, w, none)

theorem segInsert_error {rows : List segRow} {r : segRow} {e : Err}
    (h : segInsert rows r = .error e) : e = .dupSegment := by
  unfold segInsert at h
  split at h
  · injection h with h'
    exact h'.symm
  · exact absurd h (by simp)

theorem deleteDownwardsF_error_aux : ∀ n : Nat,
    (∀ s fi e, deleteDownwardsF n s fi = .error e → e = .outOfFuel) ∧
    (∀ l s e, delChildren n s l = .error e → e = .outOfFuel) := by
  intro n
  induction n with
  | zero =>
    have hA : ∀ s fi e, deleteDownwardsF 0 s fi = .error e → e = .outOfFuel := by
      intro s fi e h
      unfold deleteDownwardsF at h
      injection h with h'
      exact h'.symm
    refine ⟨hA, ?_⟩
    intro l
    induction l with
    | nil =>
      intro s e h
      exact absurd h (by simp [delChildren])
    | cons fi rest ih =>
      intro s e h
      unfold delChildren at h
      split at h
      · injection h with h'
        rename_i e' heq
        exact (h' ▸ hA _ _ _ heq)
      · exact ih _ _ h
  | succ n ihn =>
    have hA : ∀ s fi e, deleteDownwardsF (n + 1) s fi = .error e → e = .outOfFuel := by
      intro s fi e h
      unfold deleteDownwardsF at h
      dsimp only [] at h
      split at h
      case h_1 e' heq =>
        injection h with h'
        subst h'
        split at heq
        · exact ihn.2 _ _ _ heq
        · exact absurd heq (by simp)
      case h_2 => simp at h
    refine ⟨hA, ?_⟩
    intro l
    induction l with
    | nil =>
      intro s e h
      exact absurd h (by simp [delChildren])
    | cons fi rest ih =>
      intro s e h
      unfold delChildren at h
      split at h
      · injection h with h'
        rename_i e' heq
        exact (h' ▸ hA _ _ _ heq)
      · exact ih _ _ h

theorem Delete_error {s : DState} {p : String} {e : Err}
    (h : Delete s p = .error e) : e = .outOfFuel := by
  unfold Delete at h
  split at h
  · exact absurd h (by simp)
  · exact (deleteDownwardsF_error_aux _).1 _ _ _ h

/-- C2 (amended): for a writer in the Cancelled state (the `closed` flag
is never set by the source), only `commit` fails with the WriterMisuse
error identifying the Cancelled state.  A further `cancel` passes the
state check and re-runs the idempotent whole-path delete: it reports no
WriterMisuse error (and succeeds outright whenever no record exists at
the path, the common case after a cancel).  A further `write` performs no
terminal-state check at all: it uploads another segment, and can fail
only on the duplicate segment number in the `segments` table. -/
theorem writer_after_cancel (s : DState) (w : plusWriter) (buf : List Byte)
    (hcan : w.cancelled = true) (hcl : w.closed = false) :
    (pwCommit s w).2.2 = some .alreadyCancelled ∧
    (∀ e, (pwCancel s w).2.2 = some e → e = .outOfFuel) ∧
    (readFileInfo s w.fullPath = none → (pwCancel s w).2.2 = none) ∧
    ((pwWrite s w buf).2.2.2 = none ∨ (pwWrite s w buf).2.2.2 = some .dupSegment) := by
  refine ⟨?_, ?_, ?_, ?_⟩
  · unfold pwCommit
    rw [if_neg (by simp [hcl]), if_pos (by simp [hcan])]
  · intro e he
    unfold pwCancel at he
    rw [if_neg (by simp [hcl])] at he
    dsimp only [] at he
    split at he
    · rename_i e' heq
      injection he with h'
      exact h' ▸ Delete_error heq
    · exact absurd he (by simp)
  · intro hn
    unfold pwCancel
    rw [if_neg (by simp [hcl])]
    dsimp only []
    rw [Delete_none hn]
  · unfold pwWrite
    dsimp only []
    split
    · rename_i e heq
      right
      show some e = some Err.dupSegment
      rw [segInsert_error heq]
    · left
      rfl

/-- An empty driver state for the C2 scenario. -/
def c2S0 : DState :=
  { files := [], segments := [], swObjects := [], swWriteCalls := 0,
    randCtr := 0, clock := 1, objPfx := "p", delLog := [] }

/-- The state right after `newPlusWriter` at "/f" (fresh location drawn). -/
def c2S1 : DState := { c2S0 with randCtr := 1 }

/-- The writer returned for "/f". -/
def c2W0 : plusWriter :=
  { cancelled := false, closed := false, committed := false,
    fullPath := "/f", location := "r0", segments := [] }

/-- C2 counterexample: from the empty state, open a writer at "/f", write
once, cancel; a second `cancel` does not fail (it returns no error),
contradicting the claim that any subsequent `cancel` fails with a
WriterMisuse error identifying the Cancelled state. -/
theorem writer_second_cancel_counterexample :
    newPlusWriter c2S0 "/f" false = .ok (c2S1, c2W0) ∧
    (pwWrite c2S1 c2W0 [7]).2.2.2 = none ∧
    (pwCancel (pwWrite c2S1 c2W0 [7]).1 (pwWrite c2S1 c2W0 [7]).2.1).2.1.cancelled = true ∧
    (pwCancel (pwWrite c2S1 c2W0 [7]).1 (pwWrite c2S1 c2W0 [7]).2.1).2.2 = none ∧
    (pwCancel (pwCancel (pwWrite c2S1 c2W0 [7]).1 (pwWrite c2S1 c2W0 [7]).2.1).1
        (pwCancel (pwWrite c2S1 c2W0 [7]).1 (pwWrite c2S1 c2W0 [7]).2.1).2.1).2.2
      = none := by
  refine ⟨rfl, rfl, rfl, rfl, rfl⟩

theorem writer_after_cancel_witness :
    (pwCommit c2S1 { c2W0 with cancelled := true }).2.2 = some .alreadyCancelled ∧
    (pwCancel c2S1 { c2W0 with cancelled := true }).2.2 = none := by
  obtain ⟨h1, _, h3, _⟩ :=
    writer_after_cancel c2S1 { c2W0 with cancelled := true } [7] rfl rfl
  exact ⟨h1, h3 rfl⟩

/-! ### String lemmas for the object-store paths -/

theorem dropWhile_head_ne {l : List Char} (h : ∀ ch, l.head? = some ch → ch ≠ '/') :
    l.dropWhile (fun c => c = '/') = l := by
  cases l with
  | nil => rfl
  | cons a t =>
    rw [List.dropWhile_cons, if_neg (by simp [h a rfl])]

theorem trimSlashes_id (t : String)
    (hhead : ∀ ch, t.data.head? = some ch → ch ≠ '/')
    (hlast : ∀ ch, t.data.getLast? = some ch → ch ≠ '/') : trimSlashes t = t := by
  unfold trimSlashes
  have h1 : t.toList.dropWhile (fun c => c = '/') = t.toList := dropWhile_head_ne hhead
  rw [h1]
  cases hl : t.toList.getLast? with
  | none =>
    have ht : t.data = [] := by
      cases hd : t.data with
      | nil => rfl
      | cons a l =>
        have hne : t.toList ≠ [] := by
          show t.data ≠ []
          rw [hd]
          simp
        rw [List.getLast?_eq_getLast _ hne] at hl
        simp at hl
    rw [show t.toList = [] from ht]
    apply String.ext
    exact ht.symm
  | some ch =>
    rw [dropTrailingSlashes_last_ne _ ch hl (hlast ch hl)]
    exact String.ext rfl

theorem string_append_cancel_left {x a b : String} (h : x ++ a = x ++ b) : a = b := by
  apply String.ext
  have := congrArg String.data h
  rw [String.data_append, String.data_append] at this
  exact List.append_cancel_left this

theorem string_append_ne_right {x a b : String} (h : a ≠ b) : x ++ a ≠ x ++ b :=
  fun hc => h (string_append_cancel_left hc)

theorem noSlash_head (L : String) (hL1 : L ≠ "") (hL2 : '/' ∉ L.data) :
    ∀ ch, L.data.head? = some ch → ch ≠ '/' := by
  intro ch hch hc
  subst hc
  exact hL2 (List.mem_of_mem_head? hch)

theorem prependPfx_content (pfx L : String) (hL1 : L ≠ "") (hL2 : '/' ∉ L.data) :
    prependPfx pfx (L ++ "/content") = prependPfx pfx L ++ "/content" := by
  have hLdata : L.data ≠ [] := fun h => hL1 (String.ext h)
  have hconcat : (L ++ "/content").data = L.data ++ "/content".data :=
    String.data_append _ _
  have htrimL : trimSlashes L = L := by
    apply trimSlashes_id
    · exact noSlash_head L hL1 hL2
    · intro ch hch hc
      subst hc
      rcases List.getLast?_eq_some_iff.mp hch with ⟨ys, hys⟩
      exact hL2 (by rw [hys]; simp)
  have htrimC : trimSlashes (L ++ "/content") = L ++ "/content" := by
    apply trimSlashes_id
    · intro ch hch
      rw [hconcat] at hch
      cases hld : L.data with
      | nil => exact absurd hld hLdata
      | cons a t =>
        have ha : a = ch := by
          rw [hld, List.cons_append] at hch
          simpa using hch
        subst ha
        intro hc
        subst hc
        exact hL2 (by rw [hld]; exact List.mem_cons_self _ _)
    · intro ch hch hc
      subst hc
      rw [hconcat, List.getLast?_append] at hch
      have h2 : ("/content" : String).data.getLast? = some 't' := rfl
      rw [h2] at hch
      simp at hch
  unfold prependPfx
  by_cases hp : pfx = ""
  · rw [if_pos hp, if_pos hp, htrimL, htrimC]
  · rw [if_neg hp, if_neg hp, htrimL, htrimC]
    apply String.ext
    simp only [String.data_append, List.append_assoc]

theorem swiftLookup_store_other (objs : List (String × swiftObj)) (p : String)
    (o : swiftObj) (q : String) (h : q ≠ p) :
    swiftLookup (swiftStore objs p o) q = swiftLookup objs q := by
  unfold swiftStore
  split
  case isTrue hsm =>
    clear hsm
    unfold swiftLookup
    congr 1
    induction objs with
    | nil => rfl
    | cons e rest ih =>
      rw [List.map_cons]
      by_cases he : e.1 = p
      · rw [if_pos (by simpa using he)]
        rw [List.find?_cons_of_neg _ (by simpa using (Ne.symm h)),
          List.find?_cons_of_neg _ (by simp [he]; exact Ne.symm h)]
        exact ih
      · rw [if_neg (by simpa using he)]
        by_cases heq : e.1 = q
        · rw [List.find?_cons_of_pos _ (by simpa using heq),
            List.find?_cons_of_pos _ (by simpa using heq)]
        · rw [List.find?_cons_of_neg _ (by simpa using heq),
            List.find?_cons_of_neg _ (by simpa using heq)]
          exact ih
  case isFalse _ =>
    unfold swiftLookup
    rw [List.find?_append]
    have : List.find? (fun e => e.1 == q) [(p, o)] = none := by
      rw [List.find?_cons_of_neg _ (by simpa using (Ne.symm h))]
      rfl
    rw [this]
    cases objs.find? (fun e => e.1 == q) <;> rfl

theorem segInsert_ok {rows : List segRow} {r : segRow}
    (h : rows.any (fun x => x.Location == r.Location && x.Number == r.Number) = false) :
    segInsert rows r = .ok (rows ++ [r]) := by
  unfold segInsert
  rw [if_neg (by simp [h])]

theorem pwWrite_ok (s : DState) (w : plusWriter) (buf : List Byte)
    (hins : (s.segments.any (fun x => x.Location == w.location &&
        x.Number == (match w.segments.getLast? with
                     | some lastSeg => lastSeg.Number + 1
                     | none => 1))) = false) :
    pwWrite s w buf =
      ({ s with
           swObjects := swiftStore s.swObjects
             (segObjectPath
               { Pfx := s.objPfx, Location := w.location,
                 Number := (match w.segments.getLast? with
                            | some lastSeg => lastSeg.Number + 1
                            | none => 1),
                 SizeBytes := buf.length, Hash := "" }) (.plain buf),
           swWriteCalls := s.swWriteCalls + 1,
           segments := s.segments ++
             [{ Location := w.location,
                Number := (match w.segments.getLast? with
                           | some lastSeg => lastSeg.Number + 1
                           | none => 1),
                SizeBytes := buf.length, Hash := swiftHash buf }] },
       { w with segments := w.segments ++
           [{ Pfx := s.objPfx, Location := w.location,
              Number := (match w.segments.getLast? with
                         | some lastSeg => lastSeg.Number + 1
                         | none => 1),
              SizeBytes := buf.length, Hash := swiftHash buf }] },
       buf.length, none) := by
  unfold pwWrite
  dsimp only []
  rw [segInsert_ok (by exact hins)]
  rfl

theorem pwCommit_ok (s : DState) (w : plusWriter) (cs : List String) (c : String)
    (hw : wfComps cs) (hc : wfComp c)
    (hcl : w.closed = false) (hcan : w.cancelled = false) (hcom : w.committed = false)
    (hpath : w.fullPath = joinComps (cs ++ [c])) :
    ∃ s3, pwCommit s w = (s3, { w with committed := true }, none) ∧
      s3.segments = s.segments ∧ s3.objPfx = s.objPfx ∧
      s3.swWriteCalls = s.swWriteCalls + 1 ∧
      s3.swObjects = swiftStore s.swObjects
        (prependPfx s.objPfx (w.location ++ "/content"))
        (.slo (w.segments.map segObjectPath)) ∧
      readFileInfo s3 (joinComps (cs ++ [c]))
        = some { DirName := joinComps cs, BaseName := c, SizeBytes := pwSize w,
                 ModifiedAt := s.clock, Contents := [], Location := w.location } ∧
      (parentClosed s.files → parentClosed s3.files) ∧
      (∀ d b, ¬(d = joinComps cs ∧ b = c) → (findRow s.files d b).isSome →
        findRow s3.files d b = findRow s.files d b) := by
  have hdn : goDir w.fullPath = joinComps cs := by
    rw [hpath]; exact goDir_joinComps cs c hw hc
  have hbn : goBase w.fullPath = c := by
    rw [hpath]; exact goBase_joinComps cs c hc
  obtain ⟨s3, hok, hseg, hobj, hcalls, _, _, hpfx, _, hfind, hpc, huntouched, _⟩ :=
    writeFileInfo_table
      (swiftWriteSLO s
        (prependPfx s.objPfx (objectPath
          { DirName := goDir w.fullPath, BaseName := goBase w.fullPath,
            SizeBytes := pwSize w, ModifiedAt := 0, Contents := [],
            Location := w.location })) w.segments)
      { DirName := goDir w.fullPath, BaseName := goBase w.fullPath,
        SizeBytes := pwSize w, ModifiedAt := 0, Contents := [],
        Location := w.location }
      cs c hw hc hdn hbn
  refine ⟨s3, ?_, ?_, ?_, ?_, ?_, ?_, ?_, ?_⟩
  · unfold pwCommit
    rw [if_neg (by simp [hcl]), if_neg (by simp [hcan]), if_neg (by simp [hcom])]
    dsimp only []
    rw [hok]
  · rw [hseg]
    rfl
  · rw [hpfx]
    rfl
  · rw [hcalls]
    rfl
  · rw [hobj]
    rfl
  · rw [readFileInfo_join s3 cs c hw hc]
    rw [hdn, hbn] at hfind
    exact hfind
  · exact hpc
  · exact huntouched

theorem GetContent_external (s : DState) (p : String) (fi : fileInfo) (d : List Byte)
    (hfi : readFileInfo s p = some fi)
    (hnd : ¬ fi.IsDir) (hnz : fi.SizeBytes ≠ 0) (hct : fi.Contents = [])
    (hres : swiftResolve s.swObjects (prependPfx s.objPfx (objectPath fi)) = some d) :
    GetContent s p = .ok d := by
  unfold GetContent
  rw [hfi]
  dsimp only []
  rw [if_neg hnd, if_neg hnz, if_neg (by simp [hct])]
  unfold swiftRead
  rw [hres]
  simp

theorem string_append_assoc (a b c : String) : a ++ b ++ c = a ++ (b ++ c) := by
  apply String.ext
  simp [String.data_append, List.append_assoc]

theorem GetContent_zero (s : DState) (p : String) (fi : fileInfo)
    (hfi : readFileInfo s p = some fi)
    (hnd : ¬ fi.IsDir) (hz : fi.SizeBytes = 0) :
    GetContent s p = .ok [] := by
  unfold GetContent
  rw [hfi]
  dsimp only []
  rw [if_neg hnd, if_pos hz]

/-- Claim C4: for an existing externally-tiered file whose segment rows are
numbered `[1, 2]`, opening a writer with `append = true` and issuing two
writes produces segment records numbered `3` and `4` for the same external
location (each write assigns 1 if no segments exist, else last+1); after
`commit`, `get` returns the original bytes followed by both appended
chunks, concatenated in sequence order. -/
theorem writer_append_sequence
    (s : DState) (cs : List String) (c : String) (L : String)
    (b1 b2 c1 c2 : List Byte) (mt : Nat) (h1 h2 : String)
    (hw : wfComps cs) (hc : wfComp c)
    (hL1 : L ≠ "") (hL2 : '/' ∉ L.data)
    (hfi : readFileInfo s (joinComps (cs ++ [c]))
      = some { DirName := joinComps cs, BaseName := c, SizeBytes := ((b1.length + b2.length : Nat) : Int), ModifiedAt := mt, Contents := [], Location := L })
    (hrows : s.segments.filter (fun r => r.Location == L)
      = [{ Location := L, Number := 1, SizeBytes := b1.length, Hash := h1 },
         { Location := L, Number := 2, SizeBytes := b2.length, Hash := h2 }])
    (hsw1 : swiftLookup s.swObjects (prependPfx s.objPfx L ++ "/" ++ pad16 1) = some (.plain b1))
    (hsw2 : swiftLookup s.swObjects (prependPfx s.objPfx L ++ "/" ++ pad16 2) = some (.plain b2))
    (hslo : swiftLookup s.swObjects (prependPfx s.objPfx (L ++ "/content"))
      = some (.slo [prependPfx s.objPfx L ++ "/" ++ pad16 1, prependPfx s.objPfx L ++ "/" ++ pad16 2])) :
    GetContent s (joinComps (cs ++ [c])) = .ok (b1 ++ b2) ∧
    ∃ w1 s2 w2 s3 w3 s4 w4,
      newPlusWriter s (joinComps (cs ++ [c])) true = .ok (s, w1) ∧
      w1.segments = [{ Pfx := s.objPfx, Location := L, Number := 1, SizeBytes := b1.length, Hash := h1 }, { Pfx := s.objPfx, Location := L, Number := 2, SizeBytes := b2.length, Hash := h2 }] ∧
      pwWrite s w1 c1 = (s2, w2, c1.length, none) ∧
      pwWrite s2 w2 c2 = (s3, w3, c2.length, none) ∧
      w3.segments.map (fun sg => sg.Number) = [1, 2, 3, 4] ∧
      s3.segments = s.segments ++ [{ Location := L, Number := 3, SizeBytes := c1.length, Hash := swiftHash c1 }, { Location := L, Number := 4, SizeBytes := c2.length, Hash := swiftHash c2 }] ∧
      pwCommit s3 w3 = (s4, w4, none) ∧
      s4.segments = s3.segments ∧
      GetContent s4 (joinComps (cs ++ [c])) = .ok (b1 ++ b2 ++ c1 ++ c2) := by
  have hget0 : GetContent s (joinComps (cs ++ [c])) = .ok (b1 ++ b2) := by
    by_cases hz : b1.length + b2.length = 0
    · have h0 := GetContent_zero s (joinComps (cs ++ [c])) _ hfi
        (show ¬(((b1.length + b2.length : Nat) : Int) < 0) from
          Int.not_lt.mpr (Int.natCast_nonneg _))
        (show ((b1.length + b2.length : Nat) : Int) = 0 from by exact_mod_cast hz)
      have hb1 : b1 = [] := List.eq_nil_of_length_eq_zero (by omega)
      have hb2 : b2 = [] := List.eq_nil_of_length_eq_zero (by omega)
      rw [h0, hb1, hb2]
      rfl
    · apply GetContent_external s (joinComps (cs ++ [c])) _ (b1 ++ b2) hfi
      · show ¬(((b1.length + b2.length : Nat) : Int) < 0)
        exact Int.not_lt.mpr (Int.natCast_nonneg _)
      · show ((b1.length + b2.length : Nat) : Int) ≠ 0
        exact_mod_cast hz
      · rfl
      · show swiftResolve s.swObjects (prependPfx s.objPfx (L ++ "/content")) = some (b1 ++ b2)
        unfold swiftResolve
        rw [hslo]
        dsimp only []
        simp only [List.foldr_cons, List.foldr_nil]
        rw [hsw1, hsw2]
        simp
  have hseg : readSegmentInfo s L = [{ Pfx := s.objPfx, Location := L, Number := 1, SizeBytes := b1.length, Hash := h1 }, { Pfx := s.objPfx, Location := L, Number := 2, SizeBytes := b2.length, Hash := h2 }] := by
    unfold readSegmentInfo
    rw [if_neg hL1, hrows]
    rfl
  have hmem : ∀ x ∈ s.segments, x.Location = L → x.Number = 1 ∨ x.Number = 2 := by
    intro x hx hxl
    have hxf : x ∈ s.segments.filter (fun r => r.Location == L) :=
      List.mem_filter.mpr ⟨hx, by simp [hxl]⟩
    rw [hrows] at hxf
    simp only [List.mem_cons, List.not_mem_nil, or_false] at hxf
    rcases hxf with h | h
    · left
      rw [h]
    · right
      rw [h]
  have hany : ∀ n : Nat, n ≠ 1 → n ≠ 2 →
      (s.segments.any (fun x => x.Location == L && x.Number == n)) = false := by
    intro n hn1 hn2
    rw [List.any_eq_false]
    intro x hx
    simp only [Bool.and_eq_true, beq_iff_eq, not_and]
    intro hxl hxn
    rcases hmem x hx hxl with h | h <;> omega
  have hW1 : newPlusWriter s (joinComps (cs ++ [c])) true = .ok (s, { cancelled := false, closed := false, committed := false, fullPath := joinComps (cs ++ [c]), location := L, segments := [{ Pfx := s.objPfx, Location := L, Number := 1, SizeBytes := b1.length, Hash := h1 }, { Pfx := s.objPfx, Location := L, Number := 2, SizeBytes := b2.length, Hash := h2 }] }) := by
    unfold newPlusWriter
    rw [hfi]
    dsimp only []
    rw [if_pos rfl, if_neg hL1, if_neg hL1, hseg]
  have hins1 : (s.segments.any (fun x => x.Location == L && x.Number == 3)) = false :=
    hany 3 (by decide) (by decide)
  have hins2 : ((s.segments ++ [({ Location := L, Number := 3, SizeBytes := c1.length, Hash := swiftHash c1 } : segRow)]).any
      (fun x => x.Location == L && x.Number == 4)) = false := by
    rw [List.any_append, hany 4 (by decide) (by decide)]
    simp
  have hwr1 : pwWrite s ({ cancelled := false, closed := false, committed := false, fullPath := joinComps (cs ++ [c]), location := L, segments := [{ Pfx := s.objPfx, Location := L, Number := 1, SizeBytes := b1.length, Hash := h1 }, { Pfx := s.objPfx, Location := L, Number := 2, SizeBytes := b2.length, Hash := h2 }] }) c1 = ({ s with swObjects := swiftStore s.swObjects (prependPfx s.objPfx L ++ "/" ++ pad16 3) (.plain c1), swWriteCalls := s.swWriteCalls + 1, segments := s.segments ++ [{ Location := L, Number := 3, SizeBytes := c1.length, Hash := swiftHash c1 }] }, { cancelled := false, closed := false, committed := false, fullPath := joinComps (cs ++ [c]), location := L, segments := [{ Pfx := s.objPfx, Location := L, Number := 1, SizeBytes := b1.length, Hash := h1 }, { Pfx := s.objPfx, Location := L, Number := 2, SizeBytes := b2.length, Hash := h2 }, { Pfx := s.objPfx, Location := L, Number := 3, SizeBytes := c1.length, Hash := swiftHash c1 }] }, c1.length, none) := by
    rw [pwWrite_ok s ({ cancelled := false, closed := false, committed := false, fullPath := joinComps (cs ++ [c]), location := L, segments := [{ Pfx := s.objPfx, Location := L, Number := 1, SizeBytes := b1.length, Hash := h1 }, { Pfx := s.objPfx, Location := L, Number := 2, SizeBytes := b2.length, Hash := h2 }] }) c1 (by exact hins1)]
    rfl
  have hwr2 : pwWrite ({ s with swObjects := swiftStore s.swObjects (prependPfx s.objPfx L ++ "/" ++ pad16 3) (.plain c1), swWriteCalls := s.swWriteCalls + 1, segments := s.segments ++ [{ Location := L, Number := 3, SizeBytes := c1.length, Hash := swiftHash c1 }] }) ({ cancelled := false, closed := false, committed := false, fullPath := joinComps (cs ++ [c]), location := L, segments := [{ Pfx := s.objPfx, Location := L, Number := 1, SizeBytes := b1.length, Hash := h1 }, { Pfx := s.objPfx, Location := L, Number := 2, SizeBytes := b2.length, Hash := h2 }, { Pfx := s.objPfx, Location := L, Number := 3, SizeBytes := c1.length, Hash := swiftHash c1 }] }) c2 = ({ s with swObjects := swiftStore (swiftStore s.swObjects (prependPfx s.objPfx L ++ "/" ++ pad16 3) (.plain c1)) (prependPfx s.objPfx L ++ "/" ++ pad16 4) (.plain c2), swWriteCalls := s.swWriteCalls + 1 + 1, segments := (s.segments ++ [{ Location := L, Number := 3, SizeBytes := c1.length, Hash := swiftHash c1 }]) ++ [{ Location := L, Number := 4, SizeBytes := c2.length, Hash := swiftHash c2 }] }, { cancelled := false, closed := false, committed := false, fullPath := joinComps (cs ++ [c]), location := L, segments := [{ Pfx := s.objPfx, Location := L, Number := 1, SizeBytes := b1.length, Hash := h1 }, { Pfx := s.objPfx, Location := L, Number := 2, SizeBytes := b2.length, Hash := h2 }, { Pfx := s.objPfx, Location := L, Number := 3, SizeBytes := c1.length, Hash := swiftHash c1 }, { Pfx := s.objPfx, Location := L, Number := 4, SizeBytes := c2.length, Hash := swiftHash c2 }] }, c2.length, none) := by
    rw [pwWrite_ok ({ s with swObjects := swiftStore s.swObjects (prependPfx s.objPfx L ++ "/" ++ pad16 3) (.plain c1), swWriteCalls := s.swWriteCalls + 1, segments := s.segments ++ [{ Location := L, Number := 3, SizeBytes := c1.length, Hash := swiftHash c1 }] }) ({ cancelled := false, closed := false, committed := false, fullPath := joinComps (cs ++ [c]), location := L, segments := [{ Pfx := s.objPfx, Location := L, Number := 1, SizeBytes := b1.length, Hash := h1 }, { Pfx := s.objPfx, Location := L, Number := 2, SizeBytes := b2.length, Hash := h2 }, { Pfx := s.objPfx, Location := L, Number := 3, SizeBytes := c1.length, Hash := swiftHash c1 }] }) c2 (by exact hins2)]
    rfl
  obtain ⟨s4, hcommit, hseg4, hpfx4, hcalls4, hobj4, hread4, hpc4, hun4⟩ :=
    pwCommit_ok ({ s with swObjects := swiftStore (swiftStore s.swObjects (prependPfx s.objPfx L ++ "/" ++ pad16 3) (.plain c1)) (prependPfx s.objPfx L ++ "/" ++ pad16 4) (.plain c2), swWriteCalls := s.swWriteCalls + 1 + 1, segments := (s.segments ++ [{ Location := L, Number := 3, SizeBytes := c1.length, Hash := swiftHash c1 }]) ++ [{ Location := L, Number := 4, SizeBytes := c2.length, Hash := swiftHash c2 }] }) ({ cancelled := false, closed := false, committed := false, fullPath := joinComps (cs ++ [c]), location := L, segments := [{ Pfx := s.objPfx, Location := L, Number := 1, SizeBytes := b1.length, Hash := h1 }, { Pfx := s.objPfx, Location := L, Number := 2, SizeBytes := b2.length, Hash := h2 }, { Pfx := s.objPfx, Location := L, Number := 3, SizeBytes := c1.length, Hash := swiftHash c1 }, { Pfx := s.objPfx, Location := L, Number := 4, SizeBytes := c2.length, Hash := swiftHash c2 }] }) cs c hw hc rfl rfl rfl rfl
  have hsz : pwSize ({ cancelled := false, closed := false, committed := false, fullPath := joinComps (cs ++ [c]), location := L, segments := [{ Pfx := s.objPfx, Location := L, Number := 1, SizeBytes := b1.length, Hash := h1 }, { Pfx := s.objPfx, Location := L, Number := 2, SizeBytes := b2.length, Hash := h2 }, { Pfx := s.objPfx, Location := L, Number := 3, SizeBytes := c1.length, Hash := swiftHash c1 }, { Pfx := s.objPfx, Location := L, Number := 4, SizeBytes := c2.length, Hash := swiftHash c2 }] })
      = ((b1.length + b2.length + c1.length + c2.length : Nat) : Int) := by
    simp [pwSize]
  have hsl : ("/content" : String) = "/" ++ "content" := by decide
  have hcteq : prependPfx s.objPfx (L ++ "/content") = (prependPfx s.objPfx L ++ "/") ++ "content" := by
    rw [prependPfx_content s.objPfx L hL1 hL2, hsl, ← string_append_assoc]
  have hne1ct : prependPfx s.objPfx L ++ "/" ++ pad16 1 ≠ prependPfx s.objPfx (L ++ "/content") := by
    rw [hcteq]
    exact string_append_ne_right (by decide)
  have hne2ct : prependPfx s.objPfx L ++ "/" ++ pad16 2 ≠ prependPfx s.objPfx (L ++ "/content") := by
    rw [hcteq]
    exact string_append_ne_right (by decide)
  have hne3ct : prependPfx s.objPfx L ++ "/" ++ pad16 3 ≠ prependPfx s.objPfx (L ++ "/content") := by
    rw [hcteq]
    exact string_append_ne_right (by decide)
  have hne4ct : prependPfx s.objPfx L ++ "/" ++ pad16 4 ≠ prependPfx s.objPfx (L ++ "/content") := by
    rw [hcteq]
    exact string_append_ne_right (by decide)
  have hne13 : prependPfx s.objPfx L ++ "/" ++ pad16 1 ≠ prependPfx s.objPfx L ++ "/" ++ pad16 3 := string_append_ne_right (by decide)
  have hne14 : prependPfx s.objPfx L ++ "/" ++ pad16 1 ≠ prependPfx s.objPfx L ++ "/" ++ pad16 4 := string_append_ne_right (by decide)
  have hne23 : prependPfx s.objPfx L ++ "/" ++ pad16 2 ≠ prependPfx s.objPfx L ++ "/" ++ pad16 3 := string_append_ne_right (by decide)
  have hne24 : prependPfx s.objPfx L ++ "/" ++ pad16 2 ≠ prependPfx s.objPfx L ++ "/" ++ pad16 4 := string_append_ne_right (by decide)
  have hne34 : prependPfx s.objPfx L ++ "/" ++ pad16 3 ≠ prependPfx s.objPfx L ++ "/" ++ pad16 4 := string_append_ne_right (by decide)
  have hres4 : swiftResolve s4.swObjects (prependPfx s4.objPfx (L ++ "/content"))
      = some (b1 ++ b2 ++ c1 ++ c2) := by
    rw [hpfx4, hobj4]
    show swiftResolve
        (swiftStore
          (swiftStore (swiftStore s.swObjects (prependPfx s.objPfx L ++ "/" ++ pad16 3) (.plain c1)) (prependPfx s.objPfx L ++ "/" ++ pad16 4) (.plain c2))
          (prependPfx s.objPfx (L ++ "/content"))
          (.slo [prependPfx s.objPfx L ++ "/" ++ pad16 1, prependPfx s.objPfx L ++ "/" ++ pad16 2, prependPfx s.objPfx L ++ "/" ++ pad16 3, prependPfx s.objPfx L ++ "/" ++ pad16 4]))
        (prependPfx s.objPfx (L ++ "/content")) = some (b1 ++ b2 ++ c1 ++ c2)
    unfold swiftResolve
    rw [swiftLookup_store_self]
    dsimp only []
    simp only [List.foldr_cons, List.foldr_nil]
    rw [swiftLookup_store_other _ _ _ _ hne1ct, swiftLookup_store_other _ _ _ _ hne14,
        swiftLookup_store_other _ _ _ _ hne13, hsw1]
    rw [swiftLookup_store_other _ _ _ _ hne2ct, swiftLookup_store_other _ _ _ _ hne24,
        swiftLookup_store_other _ _ _ _ hne23, hsw2]
    rw [swiftLookup_store_other _ _ _ _ hne4ct]
    rw [swiftLookup_store_other _ _ _ _ hne3ct, swiftLookup_store_other _ _ _ _ hne34]
    rw [swiftLookup_store_self, swiftLookup_store_self]
    simp [List.append_assoc]
  have hget4 : GetContent s4 (joinComps (cs ++ [c])) = .ok (b1 ++ b2 ++ c1 ++ c2) := by
    by_cases hz4 : b1.length + b2.length + c1.length + c2.length = 0
    · have h0 := GetContent_zero s4 (joinComps (cs ++ [c])) _ hread4
        (show ¬(pwSize ({ cancelled := false, closed := false, committed := false, fullPath := joinComps (cs ++ [c]), location := L, segments := [{ Pfx := s.objPfx, Location := L, Number := 1, SizeBytes := b1.length, Hash := h1 }, { Pfx := s.objPfx, Location := L, Number := 2, SizeBytes := b2.length, Hash := h2 }, { Pfx := s.objPfx, Location := L, Number := 3, SizeBytes := c1.length, Hash := swiftHash c1 }, { Pfx := s.objPfx, Location := L, Number := 4, SizeBytes := c2.length, Hash := swiftHash c2 }] }) < 0) from by
          rw [hsz]
          exact Int.not_lt.mpr (Int.natCast_nonneg _))
        (show pwSize ({ cancelled := false, closed := false, committed := false, fullPath := joinComps (cs ++ [c]), location := L, segments := [{ Pfx := s.objPfx, Location := L, Number := 1, SizeBytes := b1.length, Hash := h1 }, { Pfx := s.objPfx, Location := L, Number := 2, SizeBytes := b2.length, Hash := h2 }, { Pfx := s.objPfx, Location := L, Number := 3, SizeBytes := c1.length, Hash := swiftHash c1 }, { Pfx := s.objPfx, Location := L, Number := 4, SizeBytes := c2.length, Hash := swiftHash c2 }] }) = 0 from by
          rw [hsz]
          exact_mod_cast hz4)
      have hb1 : b1 = [] := List.eq_nil_of_length_eq_zero (by omega)
      have hb2 : b2 = [] := List.eq_nil_of_length_eq_zero (by omega)
      have hc1 : c1 = [] := List.eq_nil_of_length_eq_zero (by omega)
      have hc2 : c2 = [] := List.eq_nil_of_length_eq_zero (by omega)
      rw [h0, hb1, hb2, hc1, hc2]
      rfl
    · apply GetContent_external s4 (joinComps (cs ++ [c])) _ (b1 ++ b2 ++ c1 ++ c2) hread4
      · show ¬(pwSize ({ cancelled := false, closed := false, committed := false, fullPath := joinComps (cs ++ [c]), location := L, segments := [{ Pfx := s.objPfx, Location := L, Number := 1, SizeBytes := b1.length, Hash := h1 }, { Pfx := s.objPfx, Location := L, Number := 2, SizeBytes := b2.length, Hash := h2 }, { Pfx := s.objPfx, Location := L, Number := 3, SizeBytes := c1.length, Hash := swiftHash c1 }, { Pfx := s.objPfx, Location := L, Number := 4, SizeBytes := c2.length, Hash := swiftHash c2 }] }) < 0)
        rw [hsz]
        exact Int.not_lt.mpr (Int.natCast_nonneg _)
      · show pwSize ({ cancelled := false, closed := false, committed := false, fullPath := joinComps (cs ++ [c]), location := L, segments := [{ Pfx := s.objPfx, Location := L, Number := 1, SizeBytes := b1.length, Hash := h1 }, { Pfx := s.objPfx, Location := L, Number := 2, SizeBytes := b2.length, Hash := h2 }, { Pfx := s.objPfx, Location := L, Number := 3, SizeBytes := c1.length, Hash := swiftHash c1 }, { Pfx := s.objPfx, Location := L, Number := 4, SizeBytes := c2.length, Hash := swiftHash c2 }] }) ≠ 0
        rw [hsz]
        exact_mod_cast hz4
      · rfl
      · exact hres4
  refine ⟨hget0, _, _, _, _, _, s4, _, hW1, rfl, hwr1, hwr2, rfl, ?_, hcommit, hseg4, hget4⟩
  exact List.append_assoc _ _ _

/-- The driver state for the C4 witness: one externally-tiered file at
"/f" with bytes [1] ++ [2] stored as two segments of its location "r0". -/
def c4S : DState :=
  { files := [{ DirName := "/", BaseName := "f", SizeBytes := 2, ModifiedAt := 1,
                Contents := [], Location := "r0" }],
    segments := [{ Location := "r0", Number := 1, SizeBytes := 1, Hash := swiftHash [1] },
                 { Location := "r0", Number := 2, SizeBytes := 1, Hash := swiftHash [2] }],
    swObjects := [("p/r0/0000000000000001", .plain [1]),
                  ("p/r0/0000000000000002", .plain [2]),
                  ("p/r0/content", .slo ["p/r0/0000000000000001", "p/r0/0000000000000002"])],
    swWriteCalls := 0, randCtr := 1, clock := 5, objPfx := "p", delLog := [] }

theorem writer_append_sequence_witness :
    GetContent c4S (joinComps ([] ++ ["f"])) = .ok ([1] ++ [2]) ∧
    ∃ w1 s2 w2 s3 w3 s4 w4,
      newPlusWriter c4S (joinComps ([] ++ ["f"])) true = .ok (c4S, w1) ∧
      pwWrite c4S w1 [3] = (s2, w2, [3].length, none) ∧
      pwWrite s2 w2 [4] = (s3, w3, [4].length, none) ∧
      w3.segments.map (fun sg => sg.Number) = [1, 2, 3, 4] ∧
      pwCommit s3 w3 = (s4, w4, none) ∧
      GetContent s4 (joinComps ([] ++ ["f"])) = .ok ([1] ++ [2] ++ [3] ++ [4]) := by
  obtain ⟨hg0, w1, s2, w2, s3, w3, s4, w4, h1, h2, h3, h4, h5, h6, h7, h8, h9⟩ :=
    writer_append_sequence c4S [] "f" "r0" [1] [2] [3] [4] 1 (swiftHash [1]) (swiftHash [2])
      (by decide) (by decide) (by decide) (by decide) (by decide) (by decide)
      (by decide) (by decide) (by decide)
  exact ⟨hg0, w1, s2, w2, s3, w3, s4, w4, h1, h3, h4, h5, h7, h9⟩

theorem deleteDownwardsF_file (n : Nat) (s : DState) (fi : fileInfo) (hnd : ¬ fi.IsDir) :
    deleteDownwardsF (n + 1) s fi =
      .ok { (deleteBlobs s fi) with
              files := deleteRow (deleteBlobs s fi).files fi.DirName fi.BaseName,
              delLog := (deleteBlobs s fi).delLog ++ [(fi.DirName, fi.BaseName)] } := by
  unfold deleteDownwardsF
  dsimp only []
  rw [if_neg hnd]

theorem findRow_deleteRow_self (T : List fileInfo) (d b : String) :
    findRow (deleteRow T d b) d b = none := by
  rw [findRow_eq_none_iff]
  intro r hr hand
  rcases List.mem_filter.mp hr with ⟨_, hpr⟩
  simp [hand.1, hand.2] at hpr

theorem updateRowKey_no_match (T : List fileInfo) (nd nb od ob : String)
    (h : ∀ r ∈ T, ¬(r.DirName = od ∧ r.BaseName = ob)) :
    updateRowKey T nd nb od ob = T := by
  unfold updateRowKey
  induction T with
  | nil => rfl
  | cons r rest ih =>
    rw [List.map_cons]
    rw [if_neg (by simpa using h r (by simp))]
    rw [ih (fun x hx => h x (by simp [hx]))]

/-- Claim C9: deleting an externally-tiered file removes the object-store
content under the file's external-location prefix and the FileRecord row,
but leaves every SegmentRecord in the segments table unchanged. -/
theorem delete_keeps_segments (s : DState) (p : String) (fi : fileInfo)
    (hfi : readFileInfo s p = some fi)
    (hnd : ¬ fi.IsDir) (hloc : fi.Location ≠ "") :
    ∃ s', Delete s p = .ok s' ∧
      s'.segments = s.segments ∧
      s'.files = deleteRow s.files fi.DirName fi.BaseName ∧
      findRow s'.files fi.DirName fi.BaseName = none ∧
      s'.swObjects = s.swObjects.filter
        (fun e => !(e.1.startsWith (prependPfx s.objPfx fi.Location ++ "/"))) ∧
      (∀ e ∈ s'.swObjects,
        e.1.startsWith (prependPfx s.objPfx fi.Location ++ "/") = false) := by
  have hdb : deleteBlobs s fi
      = { s with swObjects := s.swObjects.filter (fun e => !(e.1.startsWith (prependPfx s.objPfx fi.Location ++ "/"))) } := by
    unfold deleteBlobs
    rw [if_neg hloc]
    rfl
  have hdd : Delete s p = .ok
      { s with files := deleteRow s.files fi.DirName fi.BaseName,
               swObjects := s.swObjects.filter (fun e => !(e.1.startsWith (prependPfx s.objPfx fi.Location ++ "/"))),
               delLog := s.delLog ++ [(fi.DirName, fi.BaseName)] } := by
    unfold Delete
    rw [hfi]
    dsimp only []
    unfold deleteDownwards
    rw [deleteDownwardsF_file _ s fi hnd, deleteBlobs_files, deleteBlobs_delLog, hdb]
  refine ⟨_, hdd, rfl, rfl, findRow_deleteRow_self _ _ _, rfl, ?_⟩
  intro e he
  rcases List.mem_filter.mp he with ⟨_, hpe⟩
  simpa using hpe

/-- The driver state for the C9 witness: an externally-tiered file at "/f"
(location "r0"), one segment row for that location, and one unrelated
object. -/
def c9S : DState :=
  { files := [{ DirName := "/", BaseName := "f", SizeBytes := 300, ModifiedAt := 1,
                Contents := [], Location := "r0" }],
    segments := [{ Location := "r0", Number := 1, SizeBytes := 300, Hash := "h" }],
    swObjects := [("p/r0/content", .plain [7]), ("p/other/content", .plain [1])],
    swWriteCalls := 0, randCtr := 1, clock := 5, objPfx := "p", delLog := [] }

theorem delete_keeps_segments_witness :
    ∃ s', Delete c9S "/f" = .ok s' ∧
      s'.segments = c9S.segments ∧
      s'.files = deleteRow c9S.files "/" "f" ∧
      findRow s'.files "/" "f" = none ∧
      s'.swObjects = c9S.swObjects.filter
        (fun e => !(e.1.startsWith (prependPfx c9S.objPfx "r0" ++ "/"))) ∧
      (∀ e ∈ s'.swObjects,
        e.1.startsWith (prependPfx c9S.objPfx "r0" ++ "/") = false) := by
  obtain ⟨s', h1, h2, h3, h4, h5, h6⟩ :=
    delete_keeps_segments c9S "/f"
      { DirName := "/", BaseName := "f", SizeBytes := 300, ModifiedAt := 1,
        Contents := [], Location := "r0" }
      (by decide) (by decide) (by decide)
  exact ⟨s', h1, h2, h3, h4, h5, h6⟩

theorem findRow_markers_at_leaf (cs : List String) (c : String) (extra : List fileInfo)
    (hw : wfComps cs)
    (hprops : ∀ r ∈ extra, r.SizeBytes = -1 ∧ r.Contents = [] ∧ r.Location = "" ∧
      ∃ ds d es, r.DirName = joinComps ds ∧ r.BaseName = d ∧ cs = ds ++ d :: es) :
    findRow extra (joinComps cs) c = none := by
  rw [findRow_eq_none_iff]
  intro r hr hand
  obtain ⟨_, _, _, ds, d, es, h1, h2, h3⟩ := hprops r hr
  have hdseq : ds = cs := by
    apply joinComps_inj ds cs (wfComps_of_append_left (h3 ▸ hw)) hw
    rw [← h1]
    exact hand.1
  subst hdseq
  have hlen := congrArg List.length h3
  rw [List.length_append, List.length_cons] at hlen
  omega

/-- Claim C10 (implicit edge case): `move(p, p)` on an existing file
record succeeds but deletes the record entirely — the overwrite step
deletes the destination (the source itself) before the rename, the rename
then matches no row, and afterwards `get(p)` and `stat(p)` return
PathNotFound. -/
theorem move_self_deletes (s : DState) (cs : List String) (c : String) (fi : fileInfo)
    (hw : wfComps cs) (hc : wfComp c)
    (hfi : readFileInfo s (joinComps (cs ++ [c])) = some fi)
    (hnd : ¬ fi.IsDir) :
    ∃ s', Move s (joinComps (cs ++ [c])) (joinComps (cs ++ [c])) = .ok s' ∧
      readFileInfo s' (joinComps (cs ++ [c])) = none ∧
      GetContent s' (joinComps (cs ++ [c]))
        = .error (.pathNotFound (joinComps (cs ++ [c]))) ∧
      Stat s' (joinComps (cs ++ [c]))
        = .error (.pathNotFound (joinComps (cs ++ [c]))) := by
  have hfr : findRow s.files (joinComps cs) c = some fi := by
    rw [← readFileInfo_join s cs c hw hc]
    exact hfi
  obtain ⟨hkd, hkb⟩ := findRow_some_key hfr
  have hdd : deleteDownwards s fi = .ok
      { (deleteBlobs s fi) with
          files := deleteRow s.files (joinComps cs) c,
          delLog := s.delLog ++ [(joinComps cs, c)] } := by
    unfold deleteDownwards
    rw [deleteDownwardsF_file _ s fi hnd, deleteBlobs_files, deleteBlobs_delLog, hkd, hkb]
  have hupd : updateRowKey (deleteRow s.files (joinComps cs) c)
      (joinComps cs) c (joinComps cs) c = deleteRow s.files (joinComps cs) c := by
    apply updateRowKey_no_match
    intro r hr hand
    rcases List.mem_filter.mp hr with ⟨_, hpr⟩
    simp [hand.1, hand.2] at hpr
  obtain ⟨extra, hmk, hprops, _⟩ :=
    mkdirAll_spec cs
      ({ (deleteBlobs s fi) with
           files := deleteRow s.files (joinComps cs) c,
           delLog := s.delLog ++ [(joinComps cs, c)] }) hw
  have hnone : readFileInfo
      ({ (deleteBlobs s fi) with
           files := deleteRow s.files (joinComps cs) c ++ extra,
           delLog := s.delLog ++ [(joinComps cs, c)] } : DState)
      (joinComps (cs ++ [c])) = none := by
    rw [readFileInfo_join _ cs c hw hc]
    show findRow (deleteRow s.files (joinComps cs) c ++ extra) (joinComps cs) c = none
    rw [findRow_append, findRow_deleteRow_self]
    show findRow extra (joinComps cs) c = none
    exact findRow_markers_at_leaf cs c extra hw hprops
  refine ⟨_, ?_, hnone, GetContent_none hnone,
    Stat_none (joinComps_ne_root (cs ++ [c]) (wfComps_append_single hw hc) (by simp)) hnone⟩
  unfold Move
  rw [hfi]
  dsimp only []
  rw [hdd]
  dsimp only []
  rw [goDir_joinComps cs c hw hc, goBase_joinComps cs c hc, hkd, hkb]
  rw [hupd, hmk]

/-- The driver state for the C10 witness: a single inline file at "/f". -/
def c10S : DState :=
  { files := [{ DirName := "/", BaseName := "f", SizeBytes := 3, ModifiedAt := 1,
                Contents := [1, 2, 3], Location := "" }],
    segments := [], swObjects := [], swWriteCalls := 0, randCtr := 0, clock := 5,
    objPfx := "p", delLog := [] }

theorem move_self_deletes_witness :
    ∃ s', Move c10S (joinComps ([] ++ ["f"])) (joinComps ([] ++ ["f"])) = .ok s' ∧
      readFileInfo s' (joinComps ([] ++ ["f"])) = none ∧
      GetContent s' (joinComps ([] ++ ["f"]))
        = .error (.pathNotFound (joinComps ([] ++ ["f"]))) ∧
      Stat s' (joinComps ([] ++ ["f"]))
        = .error (.pathNotFound (joinComps ([] ++ ["f"]))) := by
  exact move_self_deletes c10S [] "f"
    { DirName := "/", BaseName := "f", SizeBytes := 3, ModifiedAt := 1,
      Contents := [1, 2, 3], Location := "" }
    (by decide) (by decide) (by decide) (by decide)

theorem findRow_updateRowKey_src (T : List fileInfo) (nd nb od ob : String)
    (hne : ¬(od = nd ∧ ob = nb)) :
    findRow (updateRowKey T nd nb od ob) od ob = none := by
  rw [findRow_eq_none_iff]
  intro x hx hand
  unfold updateRowKey at hx
  obtain ⟨r, hr, hfr⟩ := List.mem_map.mp hx
  by_cases hk : r.DirName = od ∧ r.BaseName = ob
  · rw [if_pos (by simp [hk.1, hk.2])] at hfr
    subst hfr
    exact hne ⟨hand.1.symm, hand.2.symm⟩
  · rw [if_neg (by simpa using hk)] at hfr
    subst hfr
    exact hk ⟨hand.1, hand.2⟩

theorem findRow_updateRowKey_other (T : List fileInfo) (nd nb od ob q1 q2 : String)
    (h1 : ¬(q1 = od ∧ q2 = ob)) (h2 : ¬(q1 = nd ∧ q2 = nb)) :
    findRow (updateRowKey T nd nb od ob) q1 q2 = findRow T q1 q2 := by
  induction T with
  | nil => rfl
  | cons r rest ih =>
    unfold updateRowKey at ih ⊢
    rw [List.map_cons]
    by_cases hk : r.DirName = od ∧ r.BaseName = ob
    · rw [if_pos (by simp [hk.1, hk.2])]
      unfold findRow
      rw [List.find?_cons_of_neg _ (by
        simp only [Bool.and_eq_true, beq_iff_eq, not_and]
        intro ha hb
        exact h2 ⟨ha.symm, hb.symm⟩)]
      rw [List.find?_cons_of_neg _ (by
        simp only [Bool.and_eq_true, beq_iff_eq, not_and]
        intro ha hb
        exact h1 ⟨ha.symm.trans hk.1, hb.symm.trans hk.2⟩)]
      exact ih
    · rw [if_neg (by simpa using hk)]
      by_cases hq : r.DirName = q1 ∧ r.BaseName = q2
      · unfold findRow
        rw [List.find?_cons_of_pos _ (by simp [hq.1, hq.2]),
            List.find?_cons_of_pos _ (by simp [hq.1, hq.2])]
      · unfold findRow
        rw [List.find?_cons_of_neg _ (by simpa using hq),
            List.find?_cons_of_neg _ (by simpa using hq)]
        exact ih

theorem findRow_updateRowKey_dst (T : List fileInfo) (nd nb od ob : String)
    (fi : fileInfo)
    (hsome : findRow T od ob = some fi) (hnone : findRow T nd nb = none) :
    findRow (updateRowKey T nd nb od ob) nd nb
      = some { fi with DirName := nd, BaseName := nb } := by
  induction T with
  | nil => exact absurd hsome (by simp [findRow])
  | cons r rest ih =>
    unfold updateRowKey at ih ⊢
    rw [List.map_cons]
    have hnr : ¬(r.DirName = nd ∧ r.BaseName = nb) := by
      intro hand
      unfold findRow at hnone
      rw [List.find?_cons_of_pos _ (by simp [hand.1, hand.2])] at hnone
      exact Option.noConfusion hnone
    by_cases hk : r.DirName = od ∧ r.BaseName = ob
    · have hhead : findRow (r :: rest) od ob = some r := by
        unfold findRow
        rw [List.find?_cons_of_pos _ (by simp [hk.1, hk.2])]
      rw [hhead] at hsome
      injection hsome with hsome
      subst hsome
      rw [if_pos (by simp [hk.1, hk.2])]
      unfold findRow
      rw [List.find?_cons_of_pos _ (by simp)]
    · rw [if_neg (by simpa using hk)]
      unfold findRow at hsome hnone ⊢
      rw [List.find?_cons_of_neg _ (by simpa using hk)] at hsome
      rw [List.find?_cons_of_neg _ (by simpa using hnr)] at hnone
      rw [List.find?_cons_of_neg _ (by simpa using hnr)]
      exact ih hsome hnone

theorem findRow_markers_free (cs qs : List String) (q : String) (extra : List fileInfo)
    (hwcs : wfComps cs) (hwqs : wfComps qs)
    (hfree : ∀ fs, cs ≠ qs ++ q :: fs)
    (hprops : ∀ r ∈ extra, r.SizeBytes = -1 ∧ r.Contents = [] ∧ r.Location = "" ∧
      ∃ ds d es, r.DirName = joinComps ds ∧ r.BaseName = d ∧ cs = ds ++ d :: es) :
    findRow extra (joinComps qs) q = none := by
  rw [findRow_eq_none_iff]
  intro r hr hand
  obtain ⟨_, _, _, ds, d, es, h1, h2, h3⟩ := hprops r hr
  have hdq : ds = qs :=
    joinComps_inj ds qs (wfComps_of_append_left (h3 ▸ hwcs)) hwqs
      (by rw [← h1]; exact hand.1)
  subst hdq
  exact hfree es (by rw [h3, ← h2, hand.2])

/-- Claim C3 (amended): moving an existing file to a destination whose
parent directory does not yet exist succeeds; `stat` on every ancestor of
the destination succeeds afterwards, and the ancestors that had no record
before the move are directory markers (a pre-existing record at an
ancestor key, directory or not, is left untouched); `get` on the
destination returns the content previously at the source; `get` on the
source returns PathNotFound. -/
theorem move_creates_ancestors
    (s : DState) (us : List String) (u : String) (vs : List String) (v : String)
    (fi : fileInfo)
    (hwu : wfComps us) (hu : wfComp u) (hwv : wfComps vs) (hv : wfComp v)
    (hsrc : readFileInfo s (joinComps (us ++ [u])) = some fi)
    (hnd : ¬ fi.IsDir)
    (hdst : readFileInfo s (joinComps (vs ++ [v])) = none)
    (hfree : ∀ fs, vs ≠ us ++ u :: fs) :
    ∃ extra s', Move s (joinComps (us ++ [u])) (joinComps (vs ++ [v])) = .ok s' ∧
      s'.files = updateRowKey s.files (joinComps vs) v (joinComps us) u ++ extra ∧
      (∀ r ∈ extra, r.SizeBytes = -1 ∧ r.Contents = [] ∧ r.Location = "") ∧
      (∀ es e fs, vs ++ [v] = es ++ e :: fs →
        ∃ r, Stat s' (joinComps (es ++ [e])) = .ok r ∧
          (fs ≠ [] → findRow s.files (joinComps es) e = none → r.IsDir)) ∧
      readFileInfo s' (joinComps (vs ++ [v])) = some { fi with DirName := joinComps vs, BaseName := v } ∧
      (∀ data, GetContent s (joinComps (us ++ [u])) = .ok data →
        GetContent s' (joinComps (vs ++ [v])) = .ok data) ∧
      readFileInfo s' (joinComps (us ++ [u])) = none ∧
      GetContent s' (joinComps (us ++ [u]))
        = .error (.pathNotFound (joinComps (us ++ [u]))) := by
  have hsrcJ : findRow s.files (joinComps us) u = some fi := by
    rw [← readFileInfo_join s us u hwu hu]
    exact hsrc
  have hdstJ : findRow s.files (joinComps vs) v = none := by
    rw [← readFileInfo_join s vs v hwv hv]
    exact hdst
  obtain ⟨hfid, hfib⟩ := findRow_some_key hsrcJ
  have hkeyne : ¬(joinComps vs = joinComps us ∧ v = u) := by
    intro hand
    rw [hand.1, hand.2] at hdstJ
    rw [hdstJ] at hsrcJ
    exact Option.noConfusion hsrcJ
  obtain ⟨extra, hmk, hprops, hpresent⟩ :=
    mkdirAll_spec vs ({ s with files := updateRowKey s.files (joinComps vs) v (joinComps us) u }) hwv
  have hmove : Move s (joinComps (us ++ [u])) (joinComps (vs ++ [v]))
      = .ok { s with files := updateRowKey s.files (joinComps vs) v (joinComps us) u ++ extra } := by
    unfold Move
    rw [hsrc, hdst]
    dsimp only []
    rw [goDir_joinComps vs v hwv hv, goBase_joinComps vs v hv, hfid, hfib]
    rw [hmk]
  have hB : readFileInfo ({ s with files := updateRowKey s.files (joinComps vs) v (joinComps us) u ++ extra } : DState) (joinComps (vs ++ [v]))
      = some { fi with DirName := joinComps vs, BaseName := v } := by
    rw [readFileInfo_join _ vs v hwv hv]
    show findRow (updateRowKey s.files (joinComps vs) v (joinComps us) u ++ extra)
      (joinComps vs) v = some { fi with DirName := joinComps vs, BaseName := v }
    rw [findRow_append_left extra (by
      rw [findRow_updateRowKey_dst s.files (joinComps vs) v (joinComps us) u fi hsrcJ hdstJ]
      rfl)]
    exact findRow_updateRowKey_dst s.files (joinComps vs) v (joinComps us) u fi hsrcJ hdstJ
  have hD : readFileInfo ({ s with files := updateRowKey s.files (joinComps vs) v (joinComps us) u ++ extra } : DState) (joinComps (us ++ [u])) = none := by
    rw [readFileInfo_join _ us u hwu hu]
    show findRow (updateRowKey s.files (joinComps vs) v (joinComps us) u ++ extra)
      (joinComps us) u = none
    rw [findRow_append, findRow_updateRowKey_src s.files (joinComps vs) v (joinComps us) u
      (fun hand => hkeyne ⟨hand.1.symm, hand.2.symm⟩)]
    show findRow extra (joinComps us) u = none
    exact findRow_markers_free vs us u extra hwv hwu hfree hprops
  refine ⟨extra, _, hmove, rfl,
    (fun r hr => ⟨(hprops r hr).1, (hprops r hr).2.1, (hprops r hr).2.2.1⟩), ?_, hB, ?_,
    hD, GetContent_none hD⟩
  · intro es e fs hsplit
    by_cases hfs : fs = []
    · subst hfs
      obtain ⟨hes, hve⟩ := List.append_inj' hsplit rfl
      have hv_e : v = e := by injection hve
      subst hes
      subst hv_e
      refine ⟨{ fi with DirName := joinComps vs, BaseName := v }, ?_, ?_⟩
      · exact Stat_some
          (joinComps_ne_root (vs ++ [v]) (wfComps_append_single hwv hv) (by simp)) hB
      · intro hcon _
        exact absurd rfl hcon
    · rcases List.eq_nil_or_concat fs with rfl | ⟨fs', x, rfl⟩
      · exact absurd rfl hfs
      · have hsp2 : vs ++ [v] = (es ++ e :: fs') ++ [x] := by
          rw [hsplit]
          simp
        obtain ⟨hvs, hvx⟩ := List.append_inj' hsp2 rfl
        have hfind := hpresent es e fs' hvs
        obtain ⟨r, hrfind⟩ := Option.isSome_iff_exists.mp hfind
        have hwes : wfComps es := wfComps_of_append_left (hvs ▸ hwv)
        have hwe : wfComp e := (hvs ▸ hwv) e (by simp)
        refine ⟨r, ?_, ?_⟩
        · apply Stat_some
            (joinComps_ne_root (es ++ [e]) (wfComps_append_single hwes hwe) (by simp))
          rw [readFileInfo_join _ es e hwes hwe]
          exact hrfind
        · intro _ hfresh
          have hqs : ¬(joinComps es = joinComps us ∧ e = u) := by
            intro hand
            rw [hand.1, hand.2] at hfresh
            rw [hfresh] at hsrcJ
            exact Option.noConfusion hsrcJ
          have hqd : ¬(joinComps es = joinComps vs ∧ e = v) := by
            intro hand
            have heq : es = vs := joinComps_inj es vs hwes hwv hand.1
            subst heq
            have hlen := congrArg List.length hvs
            rw [List.length_append, List.length_cons] at hlen
            omega
          have hleft : findRow (updateRowKey s.files (joinComps vs) v (joinComps us) u)
              (joinComps es) e = none := by
            rw [findRow_updateRowKey_other s.files (joinComps vs) v (joinComps us) u
              (joinComps es) e hqs hqd]
            exact hfresh
          have h2 : findRow (updateRowKey s.files (joinComps vs) v (joinComps us) u ++ extra)
              (joinComps es) e = some r := hrfind
          rw [findRow_append, hleft] at h2
          have hright : findRow extra (joinComps es) e = some r := h2
          obtain ⟨hsb, _, _, _⟩ := hprops r (findRow_some_mem hright)
          show r.SizeBytes < 0
          rw [hsb]
          decide
  · intro data hdata
    unfold GetContent at hdata
    rw [hsrc] at hdata
    dsimp only [] at hdata
    rw [if_neg hnd] at hdata
    by_cases h2 : fi.SizeBytes = 0
    · rw [if_pos h2] at hdata
      injection hdata with hdata
      subst hdata
      exact GetContent_zero _ _ _ hB (by exact hnd) (by exact h2)
    · rw [if_neg h2] at hdata
      by_cases h3 : fi.Contents.length > 0
      · rw [if_pos h3] at hdata
        injection hdata with hdata
        unfold GetContent
        rw [hB]
        dsimp only []
        rw [if_neg (show ¬ fileInfo.IsDir ({ fi with DirName := joinComps vs, BaseName := v } : fileInfo) from hnd),
            if_neg (show ¬ ({ fi with DirName := joinComps vs, BaseName := v } : fileInfo).SizeBytes = 0 from h2),
            if_pos (show ({ fi with DirName := joinComps vs, BaseName := v } : fileInfo).Contents.length > 0 from h3)]
        rw [← hdata]
      · rw [if_neg h3] at hdata
        cases hsw : swiftRead s (prependPfx s.objPfx (objectPath fi)) 0 with
        | error e =>
          rw [hsw] at hdata
          dsimp only [] at hdata
          exact Except.noConfusion hdata
        | ok dd =>
          rw [hsw] at hdata
          dsimp only [] at hdata
          injection hdata with hdd
          unfold swiftRead at hsw
          cases hres0 : swiftResolve s.swObjects (prependPfx s.objPfx (objectPath fi)) with
          | none =>
            rw [hres0] at hsw
            dsimp only [] at hsw
            exact Except.noConfusion hsw
          | some d =>
            rw [hres0] at hsw
            dsimp only [] at hsw
            injection hsw with hsw2
            apply GetContent_external _ _ _ data hB
            · exact hnd
            · exact h2
            · show fi.Contents = []
              have hlz : fi.Contents.length = 0 := by omega
              exact List.eq_nil_of_length_eq_zero hlz
            · show swiftResolve s.swObjects (prependPfx s.objPfx (objectPath fi)) = some data
              rw [hres0, ← hdd, ← hsw2, List.drop_zero]

/-- The driver state for the C3 instantiations: a plain file already at
"/x" (which will sit at an ancestor key of the move destination) and the
move source file at "/a". -/
def c3S : DState :=
  { files := [{ DirName := "/", BaseName := "x", SizeBytes := 1, ModifiedAt := 1,
                Contents := [7], Location := "" },
              { DirName := "/", BaseName := "a", SizeBytes := 1, ModifiedAt := 1,
                Contents := [9], Location := "" }],
    segments := [], swObjects := [], swWriteCalls := 0, randCtr := 0, clock := 5,
    objPfx := "p", delLog := [] }

/-- The state after `Move c3S "/a" "/x/y/z"`. -/
def c3S' : DState :=
  { files := [{ DirName := "/", BaseName := "x", SizeBytes := 1, ModifiedAt := 1,
                Contents := [7], Location := "" },
              { DirName := "/x/y", BaseName := "z", SizeBytes := 1, ModifiedAt := 1,
                Contents := [9], Location := "" },
              { DirName := "/x", BaseName := "y", SizeBytes := -1, ModifiedAt := 5,
                Contents := [], Location := "" }],
    segments := [], swObjects := [], swWriteCalls := 0, randCtr := 0, clock := 5,
    objPfx := "p", delLog := [] }

/-- C3 counterexample: moving "/a" to "/x/y/z" (whose parent "/x/y" does
not exist) succeeds and `get` behaves as claimed, but `stat` on the
ancestor "/x" returns the pre-existing *file* record — not a directory
descriptor — because `mkdirAll`'s insert-if-absent leaves it untouched. -/
theorem move_missing_parent_counterexample :
    Move c3S "/a" "/x/y/z" = .ok c3S' ∧
    GetContent c3S' "/x/y/z" = .ok [9] ∧
    GetContent c3S' "/a" = .error (.pathNotFound "/a") ∧
    Stat c3S' "/x" = .ok { DirName := "/", BaseName := "x", SizeBytes := 1,
                           ModifiedAt := 1, Contents := [7], Location := "" } ∧
    ¬ fileInfo.IsDir { DirName := "/", BaseName := "x", SizeBytes := 1,
                       ModifiedAt := 1, Contents := [7], Location := "" } := by
  exact ⟨rfl, rfl, rfl, rfl, by decide⟩

theorem move_creates_ancestors_witness :
    ∃ extra s',
      Move c3S (joinComps ([] ++ ["a"])) (joinComps (["x", "y"] ++ ["z"])) = .ok s' ∧
      s'.files = updateRowKey c3S.files (joinComps ["x", "y"]) "z" (joinComps []) "a"
        ++ extra ∧
      (∀ r ∈ extra, r.SizeBytes = -1 ∧ r.Contents = [] ∧ r.Location = "") ∧
      (∀ es e fs, ["x", "y"] ++ ["z"] = es ++ e :: fs →
        ∃ r, Stat s' (joinComps (es ++ [e])) = .ok r ∧
          (fs ≠ [] → findRow c3S.files (joinComps es) e = none → r.IsDir)) ∧
      readFileInfo s' (joinComps (["x", "y"] ++ ["z"]))
        = some { DirName := joinComps ["x", "y"], BaseName := "z", SizeBytes := 1,
                 ModifiedAt := 1, Contents := [9], Location := "" } ∧
      (∀ data, GetContent c3S (joinComps ([] ++ ["a"])) = .ok data →
        GetContent s' (joinComps (["x", "y"] ++ ["z"])) = .ok data) ∧
      readFileInfo s' (joinComps ([] ++ ["a"])) = none ∧
      GetContent s' (joinComps ([] ++ ["a"]))
        = .error (.pathNotFound (joinComps ([] ++ ["a"]))) := by
  exact move_creates_ancestors c3S [] "a" ["x", "y"] "z"
    { DirName := "/", BaseName := "a", SizeBytes := 1, ModifiedAt := 1,
      Contents := [9], Location := "" }
    (by decide) (by decide) (by decide) (by decide) (by decide) (by decide) (by decide)
    (by
      intro fs h
      injection h with h1 _
      exact absurd h1 (by decide))

theorem filter_dir_updateRowKey (T : List fileInfo) (nd nb od ob q : String)
    (h1 : od ≠ q) (h2 : nd ≠ q) :
    (updateRowKey T nd nb od ob).filter (fun r => r.DirName == q)
      = T.filter (fun r => r.DirName == q) := by
  unfold updateRowKey
  induction T with
  | nil => rfl
  | cons r rest ih =>
    rw [List.map_cons]
    by_cases hk : r.DirName = od ∧ r.BaseName = ob
    · rw [if_pos (by simp [hk.1, hk.2])]
      rw [List.filter_cons, List.filter_cons]
      rw [if_neg (by simp [h2]), if_neg (by simp [hk.1, h1])]
      exact ih
    · rw [if_neg (by simpa using hk)]
      rw [List.filter_cons, List.filter_cons]
      by_cases hq : r.DirName = q
      · rw [if_pos (by simp [hq]), if_pos (by simp [hq])]
        rw [ih]
      · rw [if_neg (by simp [hq]), if_neg (by simp [hq])]
        exact ih

/-- Claim C7: renaming a directory record updates only the directory's own
(directory-path, base-name) key; every descendant record keeps its
directory-path rooted at the old full path, so the descendants are no
longer reachable by `list` on the new path (the listings of both the old
and the new path are exactly what they were before the move). -/
theorem move_dir_orphans_children
    (s : DState) (us : List String) (u : String) (vs : List String) (v : String)
    (fd : fileInfo)
    (hwu : wfComps us) (hu : wfComp u) (hwv : wfComps vs) (hv : wfComp v)
    (hsrc : readFileInfo s (joinComps (us ++ [u])) = some fd)
    (hdst : readFileInfo s (joinComps (vs ++ [v])) = none)
    (hout : ∀ fs, vs ≠ (us ++ [u]) ++ fs)
    (hanc : us ≠ vs ++ [v]) :
    ∃ extra s', Move s (joinComps (us ++ [u])) (joinComps (vs ++ [v])) = .ok s' ∧
      s'.files = updateRowKey s.files (joinComps vs) v (joinComps us) u ++ extra ∧
      readFileInfo s' (joinComps (vs ++ [v])) = some { fd with DirName := joinComps vs, BaseName := v } ∧
      (∀ b, (findRow s.files (joinComps (us ++ [u])) b).isSome →
        findRow s'.files (joinComps (us ++ [u])) b = findRow s.files (joinComps (us ++ [u])) b) ∧
      ListOp s' (joinComps (us ++ [u])) = ListOp s (joinComps (us ++ [u])) ∧
      ListOp s' (joinComps (vs ++ [v])) = ListOp s (joinComps (vs ++ [v])) ∧
      ((∀ r ∈ s.files, r.DirName ≠ joinComps (vs ++ [v])) → ListOp s' (joinComps (vs ++ [v])) = .ok []) := by
  have hwu1 : wfComps [u] := by
    intro x hx
    rw [List.mem_singleton] at hx
    subst hx
    exact hu
  have hwv1 : wfComps [v] := by
    intro x hx
    rw [List.mem_singleton] at hx
    subst hx
    exact hv
  have hwuu : wfComps (us ++ [u]) := wfComps_append_single hwu hu
  have hsrcJ : findRow s.files (joinComps us) u = some fd := by
    rw [← readFileInfo_join s us u hwu hu]
    exact hsrc
  have hdstJ : findRow s.files (joinComps vs) v = none := by
    rw [← readFileInfo_join s vs v hwv hv]
    exact hdst
  obtain ⟨hfid, hfib⟩ := findRow_some_key hsrcJ
  obtain ⟨extra, hmk, hprops, hpresent⟩ :=
    mkdirAll_spec vs ({ s with files := updateRowKey s.files (joinComps vs) v (joinComps us) u }) hwv
  have hmove : Move s (joinComps (us ++ [u])) (joinComps (vs ++ [v])) = .ok ({ s with files := updateRowKey s.files (joinComps vs) v (joinComps us) u ++ extra } : DState) := by
    unfold Move
    rw [hsrc, hdst]
    dsimp only []
    rw [goDir_joinComps vs v hwv hv, goBase_joinComps vs v hv, hfid, hfib]
    rw [hmk]
  have hB : readFileInfo ({ s with files := updateRowKey s.files (joinComps vs) v (joinComps us) u ++ extra } : DState) (joinComps (vs ++ [v])) = some { fd with DirName := joinComps vs, BaseName := v } := by
    rw [readFileInfo_join _ vs v hwv hv]
    show findRow (updateRowKey s.files (joinComps vs) v (joinComps us) u ++ extra)
      (joinComps vs) v = some { fd with DirName := joinComps vs, BaseName := v }
    rw [findRow_append_left extra (by
      rw [findRow_updateRowKey_dst s.files (joinComps vs) v (joinComps us) u fd hsrcJ hdstJ]
      rfl)]
    exact findRow_updateRowKey_dst s.files (joinComps vs) v (joinComps us) u fd hsrcJ hdstJ
  have hSne_od : joinComps (us ++ [u]) ≠ joinComps us := by
    intro heq
    have hlt := joinComps_lt_of_suffix us [u] (by simp) hwu1
    rw [heq] at hlt
    exact Nat.lt_irrefl _ hlt
  have hSne_nd : joinComps (us ++ [u]) ≠ joinComps vs := by
    intro heq
    have hus : us ++ [u] = vs := joinComps_inj _ _ hwuu hwv heq
    exact hout [] (by simp [← hus])
  have hDne_od : joinComps us ≠ joinComps (vs ++ [v]) := by
    intro heq
    have hus : us = vs ++ [v] := joinComps_inj _ _ hwu (wfComps_append_single hwv hv) heq
    exact hanc hus
  have hDne_nd : joinComps vs ≠ joinComps (vs ++ [v]) := by
    intro heq
    have hlt := joinComps_lt_of_suffix vs [v] (by simp) hwv1
    rw [heq] at hlt
    exact Nat.lt_irrefl _ hlt
  have hextraS : extra.filter (fun r => r.DirName == joinComps (us ++ [u])) = [] := by
    rw [List.filter_eq_nil_iff]
    intro r hr
    obtain ⟨_, _, _, ds, d1, es, h1, _, h3⟩ := hprops r hr
    simp only [beq_iff_eq]
    intro hds
    rw [h1] at hds
    have hdsu : ds = us ++ [u] :=
      joinComps_inj ds (us ++ [u]) (wfComps_of_append_left (h3 ▸ hwv)) hwuu hds
    exact hout (d1 :: es) (by rw [h3, hdsu])
  have hextraD : extra.filter (fun r => r.DirName == joinComps (vs ++ [v])) = [] := by
    rw [List.filter_eq_nil_iff]
    intro r hr
    obtain ⟨_, _, _, ds, d1, es, h1, _, h3⟩ := hprops r hr
    simp only [beq_iff_eq]
    intro hds
    have hsplit : vs ++ [v] = ds ++ (d1 :: (es ++ [v])) := by
      rw [h3]
      simp
    have hwtail : wfComps (d1 :: (es ++ [v])) := by
      intro x hx
      apply wfComps_append_single hwv hv x
      rw [hsplit]
      exact List.mem_append_right _ hx
    have hlt := joinComps_lt_of_suffix ds (d1 :: (es ++ [v])) (by simp) hwtail
    rw [← hsplit, ← h1, hds] at hlt
    exact Nat.lt_irrefl _ hlt
  have hfiltS : (updateRowKey s.files (joinComps vs) v (joinComps us) u ++ extra).filter
      (fun r => r.DirName == joinComps (us ++ [u])) = s.files.filter (fun r => r.DirName == joinComps (us ++ [u])) := by
    rw [List.filter_append, hextraS,
      filter_dir_updateRowKey s.files (joinComps vs) v (joinComps us) u (joinComps (us ++ [u]))
        (fun h => hSne_od h.symm) (fun h => hSne_nd h.symm)]
    simp
  have hfiltD : (updateRowKey s.files (joinComps vs) v (joinComps us) u ++ extra).filter
      (fun r => r.DirName == joinComps (vs ++ [v])) = s.files.filter (fun r => r.DirName == joinComps (vs ++ [v])) := by
    rw [List.filter_append, hextraD,
      filter_dir_updateRowKey s.files (joinComps vs) v (joinComps us) u (joinComps (vs ++ [v])) hDne_od hDne_nd]
    simp
  have hlistS : ListOp ({ s with files := updateRowKey s.files (joinComps vs) v (joinComps us) u ++ extra } : DState) (joinComps (us ++ [u])) = ListOp s (joinComps (us ++ [u])) := by
    unfold ListOp
    rw [show ({ s with files := updateRowKey s.files (joinComps vs) v (joinComps us) u ++ extra } : DState).files
        = updateRowKey s.files (joinComps vs) v (joinComps us) u ++ extra from rfl]
    rw [hfiltS]
  have hlistD : ListOp ({ s with files := updateRowKey s.files (joinComps vs) v (joinComps us) u ++ extra } : DState) (joinComps (vs ++ [v])) = ListOp s (joinComps (vs ++ [v])) := by
    unfold ListOp
    rw [show ({ s with files := updateRowKey s.files (joinComps vs) v (joinComps us) u ++ extra } : DState).files
        = updateRowKey s.files (joinComps vs) v (joinComps us) u ++ extra from rfl]
    rw [hfiltD]
  refine ⟨extra, _, hmove, rfl, hB, ?_, hlistS, hlistD, ?_⟩
  · intro b hb
    have hunch : findRow (updateRowKey s.files (joinComps vs) v (joinComps us) u)
        (joinComps (us ++ [u])) b = findRow s.files (joinComps (us ++ [u])) b :=
      findRow_updateRowKey_other s.files (joinComps vs) v (joinComps us) u (joinComps (us ++ [u])) b
        (fun hand => hSne_od hand.1) (fun hand => hSne_nd hand.1)
    show findRow (updateRowKey s.files (joinComps vs) v (joinComps us) u ++ extra)
      (joinComps (us ++ [u])) b = findRow s.files (joinComps (us ++ [u])) b
    rw [findRow_append_left extra (by rw [hunch]; exact hb), hunch]
  · intro hempty
    rw [hlistD]
    unfold ListOp
    rw [show s.files.filter (fun r => r.DirName == joinComps (vs ++ [v])) = [] from
      List.filter_eq_nil_iff.mpr (fun r hr => by simp [hempty r hr])]
    rfl

/-- The driver state for the C7 witness: a directory record "/d" with one
child record "/d/c". -/
def c7S : DState :=
  { files := [{ DirName := "/", BaseName := "d", SizeBytes := -1, ModifiedAt := 1,
                Contents := [], Location := "" },
              { DirName := "/d", BaseName := "c", SizeBytes := 1, ModifiedAt := 1,
                Contents := [5], Location := "" }],
    segments := [], swObjects := [], swWriteCalls := 0, randCtr := 0, clock := 9,
    objPfx := "p", delLog := [] }

theorem move_dir_orphans_children_witness :
    ∃ extra s', Move c7S (joinComps ([] ++ ["d"])) (joinComps ([] ++ ["e"])) = .ok s' ∧
      s'.files = updateRowKey c7S.files (joinComps []) "e" (joinComps []) "d" ++ extra ∧
      readFileInfo s' (joinComps ([] ++ ["e"]))
        = some { DirName := joinComps [], BaseName := "e", SizeBytes := -1,
                 ModifiedAt := 1, Contents := [], Location := "" } ∧
      (∀ b, (findRow c7S.files (joinComps ([] ++ ["d"])) b).isSome →
        findRow s'.files (joinComps ([] ++ ["d"])) b
          = findRow c7S.files (joinComps ([] ++ ["d"])) b) ∧
      ListOp s' (joinComps ([] ++ ["d"])) = ListOp c7S (joinComps ([] ++ ["d"])) ∧
      ListOp s' (joinComps ([] ++ ["e"])) = ListOp c7S (joinComps ([] ++ ["e"])) ∧
      ((∀ r ∈ c7S.files, r.DirName ≠ joinComps ([] ++ ["e"])) →
        ListOp s' (joinComps ([] ++ ["e"])) = .ok []) := by
  exact move_dir_orphans_children c7S [] "d" [] "e"
    { DirName := "/", BaseName := "d", SizeBytes := -1, ModifiedAt := 1,
      Contents := [], Location := "" }
    (by decide) (by decide) (by decide) (by decide) (by decide) (by decide)
    (by
      intro fs h
      simp at h)
    (by decide)

theorem move_parentClosed
    (s : DState) (us : List String) (u : String) (vs : List String) (v : String)
    (fi : fileInfo)
    (hwu : wfComps us) (hu : wfComp u) (hwv : wfComps vs) (hv : wfComp v)
    (hsrc : readFileInfo s (joinComps (us ++ [u])) = some fi)
    (hdst : readFileInfo s (joinComps (vs ++ [v])) = none)
    (hnochild : ∀ r ∈ s.files, ¬(goDir r.DirName = joinComps us ∧ goBase r.DirName = u))
    (hpc : parentClosed s.files) :
    ∃ s', Move s (joinComps (us ++ [u])) (joinComps (vs ++ [v])) = .ok s' ∧
      parentClosed s'.files := by
  have hsrcJ : findRow s.files (joinComps us) u = some fi := by
    rw [← readFileInfo_join s us u hwu hu]
    exact hsrc
  have hdstJ : findRow s.files (joinComps vs) v = none := by
    rw [← readFileInfo_join s vs v hwv hv]
    exact hdst
  obtain ⟨hfid, hfib⟩ := findRow_some_key hsrcJ
  obtain ⟨extra, hmk, hprops, hpresent⟩ :=
    mkdirAll_spec vs ({ s with files := updateRowKey s.files (joinComps vs) v (joinComps us) u }) hwv
  have hmove : Move s (joinComps (us ++ [u])) (joinComps (vs ++ [v]))
      = .ok ({ s with files := updateRowKey s.files (joinComps vs) v (joinComps us) u ++ extra } : DState) := by
    unfold Move
    rw [hsrc, hdst]
    dsimp only []
    rw [goDir_joinComps vs v hwv hv, goBase_joinComps vs v hv, hfid, hfib]
    rw [hmk]
  refine ⟨_, hmove, ?_⟩
  show parentClosed (updateRowKey s.files (joinComps vs) v (joinComps us) u ++ extra)
  have hpres : ∀ q1 q2, ¬(q1 = joinComps us ∧ q2 = u) → (findRow s.files q1 q2).isSome →
      (findRow (updateRowKey s.files (joinComps vs) v (joinComps us) u ++ extra) q1 q2).isSome := by
    intro q1 q2 hq hsome
    apply findRow_isSome_mono
    by_cases hqd : q1 = joinComps vs ∧ q2 = v
    · rw [hqd.1, hqd.2,
        findRow_updateRowKey_dst s.files (joinComps vs) v (joinComps us) u fi hsrcJ hdstJ]
      rfl
    · rw [findRow_updateRowKey_other s.files (joinComps vs) v (joinComps us) u q1 q2 hq hqd]
      exact hsome
  intro r hr
  rcases List.mem_append.mp hr with hleft | hex
  · unfold updateRowKey at hleft
    obtain ⟨r0, hr0, hfr⟩ := List.mem_map.mp hleft
    by_cases hk : r0.DirName = joinComps us ∧ r0.BaseName = u
    · rw [if_pos (by simp [hk.1, hk.2])] at hfr
      subst hfr
      unfold parentPresent
      rcases List.eq_nil_or_concat vs with hnil | ⟨vs', v', hvv⟩
      · left
        show joinComps vs = "/"
        rw [hnil]
        rfl
      · right
        obtain ⟨hwvs', hwv'⟩ := @wf_of_split vs vs' [] v' (by rw [hvv]; simp) hwv
        have hkey : goDir (joinComps vs) = joinComps vs' ∧ goBase (joinComps vs) = v' := by
          rw [hvv, show vs'.concat v' = vs' ++ [v'] by simp]
          exact ⟨goDir_joinComps vs' v' hwvs' hwv', goBase_joinComps vs' v' hwv'⟩
        show (findRow (updateRowKey s.files (joinComps vs) v (joinComps us) u ++ extra)
          (goDir (joinComps vs)) (goBase (joinComps vs))).isSome
        rw [hkey.1, hkey.2]
        exact hpresent vs' v' [] (by rw [hvv]; simp)
    · rw [if_neg (by simpa using hk)] at hfr
      subst hfr
      have hp := hpc r0 hr0
      unfold parentPresent at hp ⊢
      rcases hp with h | h
      · exact Or.inl h
      · exact Or.inr (hpres _ _ (hnochild r0 hr0) h)
  · obtain ⟨_, _, _, ds, d1, es, h1, h2, h3⟩ := hprops r hex
    unfold parentPresent
    rw [h1]
    rcases List.eq_nil_or_concat ds with hnil | ⟨ds', d', hdd⟩
    · left
      rw [hnil]
      rfl
    · right
      have hwds : wfComps ds := wfComps_of_append_left (h3 ▸ hwv)
      obtain ⟨hwds', hwd'⟩ := @wf_of_split ds ds' [] d' (by rw [hdd]; simp) hwds
      have hkey : goDir (joinComps ds) = joinComps ds' ∧ goBase (joinComps ds) = d' := by
        rw [hdd, show ds'.concat d' = ds' ++ [d'] by simp]
        exact ⟨goDir_joinComps ds' d' hwds' hwd', goBase_joinComps ds' d' hwd'⟩
      rw [hkey.1, hkey.2]
      exact hpresent ds' d' (d1 :: es) (by rw [h3, hdd]; simp)

instance (T : List fileInfo) (r : fileInfo) : Decidable (parentPresent T r) := by
  unfold parentPresent
  infer_instance

instance (T : List fileInfo) : Decidable (parentClosed T) := by
  unfold parentClosed
  exact List.decidableBAll _ _

/-- Claim C8 (amended): put and writer commit preserve the
parent-closure invariant (every record except the root has a record for
its immediate parent, transitively up to root; ancestor markers are
inserted proactively and idempotently); a successful move preserves it
only when no record has the moved record as its immediate parent — moving
a directory that has children orphans them and breaks the invariant. -/
theorem mutators_parent_closure (s : DState) (hpc : parentClosed s.files) :
    (∀ cs c content, wfComps cs → wfComp c →
      ∃ s', PutContent s (joinComps (cs ++ [c])) content = .ok s' ∧
        parentClosed s'.files) ∧
    (∀ (w : plusWriter) cs c, wfComps cs → wfComp c → w.closed = false →
      w.cancelled = false → w.committed = false →
      w.fullPath = joinComps (cs ++ [c]) →
      ∃ s' w', pwCommit s w = (s', w', none) ∧ parentClosed s'.files) ∧
    (∀ us u vs v fi, wfComps us → wfComp u → wfComps vs → wfComp v →
      readFileInfo s (joinComps (us ++ [u])) = some fi →
      readFileInfo s (joinComps (vs ++ [v])) = none →
      (∀ r ∈ s.files, ¬(goDir r.DirName = joinComps us ∧ goBase r.DirName = u)) →
      ∃ s', Move s (joinComps (us ++ [u])) (joinComps (vs ++ [v])) = .ok s' ∧
        parentClosed s'.files) := by
  refine ⟨?_, ?_, ?_⟩
  · intro cs c content hw hc
    cases hri : readFileInfo s (joinComps (cs ++ [c])) with
    | some fi =>
      obtain ⟨s', h1, _, _, _, _, _, hpcl, _⟩ :=
        putPhase2_spec (deleteBlobs s fi) cs c content hw hc
      refine ⟨s', ?_, hpcl (by rw [deleteBlobs_files]; exact hpc)⟩
      rw [PutContent_phase2, hri]
      exact h1
    | none =>
      obtain ⟨s', h1, _, _, _, _, _, hpcl, _⟩ := putPhase2_spec s cs c content hw hc
      refine ⟨s', ?_, hpcl hpc⟩
      rw [PutContent_phase2, hri]
      exact h1
  · intro w cs c hw hc hcl hcan hcom hpath
    obtain ⟨s3, heq, _, _, _, _, _, hpcl, _⟩ :=
      pwCommit_ok s w cs c hw hc hcl hcan hcom hpath
    exact ⟨s3, _, heq, hpcl hpc⟩
  · intro us u vs v fi hwu hu hwv hv hsrc hdst hnochild
    exact move_parentClosed s us u vs v fi hwu hu hwv hv hsrc hdst hnochild hpc

/-- The driver state for the C8 instantiations: a directory "/d" with a
child record "/d/c". -/
def c8S : DState :=
  { files := [{ DirName := "/", BaseName := "d", SizeBytes := -1, ModifiedAt := 1,
                Contents := [], Location := "" },
              { DirName := "/d", BaseName := "c", SizeBytes := 1, ModifiedAt := 1,
                Contents := [5], Location := "" }],
    segments := [], swObjects := [], swWriteCalls := 0, randCtr := 0, clock := 9,
    objPfx := "p", delLog := [] }

/-- The state after `Move c8S "/d" "/e"`. -/
def c8S' : DState :=
  { files := [{ DirName := "/", BaseName := "e", SizeBytes := -1, ModifiedAt := 1,
                Contents := [], Location := "" },
              { DirName := "/d", BaseName := "c", SizeBytes := 1, ModifiedAt := 1,
                Contents := [5], Location := "" }],
    segments := [], swObjects := [], swWriteCalls := 0, randCtr := 0, clock := 9,
    objPfx := "p", delLog := [] }

/-- C8 counterexample: the parent-closure invariant holds before, the
move of the directory "/d" (which has the child "/d/c") to "/e" succeeds,
and afterwards the surviving child record has no record for its immediate
parent "/d" any more — the invariant is not preserved by every successful
move. -/
theorem move_breaks_parent_closure_counterexample :
    parentClosed c8S.files ∧
    Move c8S "/d" "/e" = .ok c8S' ∧
    ({ DirName := "/d", BaseName := "c", SizeBytes := 1, ModifiedAt := 1,
       Contents := [5], Location := "" } : fileInfo) ∈ c8S'.files ∧
    ¬ parentPresent c8S'.files
      { DirName := "/d", BaseName := "c", SizeBytes := 1, ModifiedAt := 1,
        Contents := [5], Location := "" } ∧
    ¬ parentClosed c8S'.files := by
  exact ⟨by decide, rfl, by decide, by decide, by decide⟩

/-- A clean state for the C8 witness: a single directory record "/d"
without children. -/
def c8W : DState :=
  { files := [{ DirName := "/", BaseName := "d", SizeBytes := -1, ModifiedAt := 1,
                Contents := [], Location := "" }],
    segments := [], swObjects := [], swWriteCalls := 0, randCtr := 0, clock := 9,
    objPfx := "p", delLog := [] }

theorem mutators_parent_closure_witness :
    (∃ s', PutContent c8W (joinComps ([] ++ ["f"])) [1] = .ok s' ∧
      parentClosed s'.files) ∧
    (∃ s' w', pwCommit c8W
        { cancelled := false, closed := false, committed := false,
          fullPath := joinComps ([] ++ ["g"]), location := "L", segments := [] }
      = (s', w', none) ∧ parentClosed s'.files) ∧
    (∃ s', Move c8W (joinComps ([] ++ ["d"])) (joinComps ([] ++ ["e"])) = .ok s' ∧
      parentClosed s'.files) := by
  obtain ⟨h1, h2, h3⟩ := mutators_parent_closure c8W (by decide)
  exact ⟨h1 [] "f" [1] (by decide) (by decide),
    h2 { cancelled := false, closed := false, committed := false,
         fullPath := joinComps ([] ++ ["g"]), location := "L", segments := [] }
      [] "g" (by decide) (by decide) rfl rfl rfl rfl,
    h3 [] "d" [] "e"
      { DirName := "/", BaseName := "d", SizeBytes := -1, ModifiedAt := 1,
        Contents := [], Location := "" }
      (by decide) (by decide) (by decide) (by decide) (by decide) (by decide) (by decide)⟩

/-- The state-evolution frame common to every step of the recursive
delete: rows and objects are only ever removed, the other components are
untouched. -/
structure delFrame (s s' : DState) : Prop where
  files_sub : ∀ r ∈ s'.files, r ∈ s.files
  obj_sub : ∀ e ∈ s'.swObjects, e ∈ s.swObjects
  seg : s'.segments = s.segments
  calls : s'.swWriteCalls = s.swWriteCalls
  rand : s'.randCtr = s.randCtr
  clk : s'.clock = s.clock
  pfx : s'.objPfx = s.objPfx
  none_pres : ∀ d b, findRow s.files d b = none → findRow s'.files d b = none

theorem delFrame_refl (s : DState) : delFrame s s :=
  ⟨fun _ h => h, fun _ h => h, rfl, rfl, rfl, rfl, rfl, fun _ _ h => h⟩

theorem delFrame_trans {s1 s2 s3 : DState} (h1 : delFrame s1 s2) (h2 : delFrame s2 s3) :
    delFrame s1 s3 :=
  ⟨fun r hr => h1.files_sub r (h2.files_sub r hr),
   fun e he => h1.obj_sub e (h2.obj_sub e he),
   h2.seg.trans h1.seg, h2.calls.trans h1.calls, h2.rand.trans h1.rand,
   h2.clk.trans h1.clk, h2.pfx.trans h1.pfx,
   fun d b h => h2.none_pres d b (h1.none_pres d b h)⟩

theorem findRow_none_mono {T T' : List fileInfo} (hsub : ∀ r ∈ T', r ∈ T)
    {d b : String} (h : findRow T d b = none) : findRow T' d b = none := by
  rw [findRow_eq_none_iff] at h ⊢
  intro r hr
  exact h r (hsub r hr)

theorem deleteBlobs_frame (s : DState) (fi : fileInfo) : delFrame s (deleteBlobs s fi) := by
  refine ⟨?_, ?_, ?_, ?_, ?_, ?_, ?_, ?_⟩
  · rw [deleteBlobs_files]
    exact fun _ h => h
  · unfold deleteBlobs swiftDeleteAll
    split
    · exact fun _ h => h
    · exact fun e he => (List.mem_filter.mp he).1
  · rw [deleteBlobs_segments]
  · unfold deleteBlobs swiftDeleteAll
    split <;> rfl
  · unfold deleteBlobs swiftDeleteAll
    split <;> rfl
  · unfold deleteBlobs swiftDeleteAll
    split <;> rfl
  · unfold deleteBlobs swiftDeleteAll
    split <;> rfl
  · rw [deleteBlobs_files]
    exact fun _ _ h => h

theorem deleteBlobs_clears (s : DState) (fi : fileInfo) (h : fi.Location ≠ "") :
    ∀ e ∈ (deleteBlobs s fi).swObjects,
      e.1.startsWith (prependPfx s.objPfx fi.Location ++ "/") = false := by
  unfold deleteBlobs
  rw [if_neg h]
  unfold swiftDeleteAll
  intro e he
  have hm := (List.mem_filter.mp he).2
  simpa using hm

theorem deleteRow_subset (T : List fileInfo) (d b : String) :
    ∀ r ∈ deleteRow T d b, r ∈ T := by
  intro r hr
  exact (List.mem_filter.mp hr).1

/-- Postcondition of a successful `deleteDownwards` call. -/
def ddPost (s : DState) (fi : fileInfo) (s' : DState) : Prop :=
  delFrame s s' ∧
  findRow s'.files fi.DirName fi.BaseName = none ∧
  (fi.Location ≠ "" → ∀ e ∈ s'.swObjects,
    e.1.startsWith (prependPfx s.objPfx fi.Location ++ "/") = false) ∧
  (fi.IsDir → ∀ b, findRow s'.files (fiPath fi) b = none) ∧
  (fi.IsDir → ∀ r0 ∈ s.files, r0.DirName = fiPath fi → r0.Location ≠ "" →
    ∀ e ∈ s'.swObjects,
      e.1.startsWith (prependPfx s.objPfx r0.Location ++ "/") = false) ∧
  (∃ sub, s'.delLog = s.delLog ++ sub ++ [(fi.DirName, fi.BaseName)])

/-- Postcondition of a successful `delChildren` run over a snapshot. -/
def dcPost (s : DState) (l : List fileInfo) (s' : DState) : Prop :=
  delFrame s s' ∧
  (∀ fi ∈ l, findRow s'.files fi.DirName fi.BaseName = none ∧
    (fi.Location ≠ "" → ∀ e ∈ s'.swObjects,
      e.1.startsWith (prependPfx s.objPfx fi.Location ++ "/") = false)) ∧
  (∃ sub, s'.delLog = s.delLog ++ sub)

theorem dd_post_aux : ∀ n : Nat,
    (∀ s fi s', deleteDownwardsF n s fi = .ok s' → ddPost s fi s') ∧
    (∀ l s s', delChildren n s l = .ok s' → dcPost s l s') := by
  intro n
  induction n with
  | zero =>
    have hA : ∀ s fi s', deleteDownwardsF 0 s fi = .ok s' → ddPost s fi s' := by
      intro s fi s' h
      unfold deleteDownwardsF at h
      exact Except.noConfusion h
    refine ⟨hA, ?_⟩
    intro l
    induction l with
    | nil =>
      intro s s' h
      unfold delChildren at h
      injection h with h
      subst h
      exact ⟨delFrame_refl s, fun fi hfi => absurd hfi (List.not_mem_nil fi),
        ⟨[], by simp⟩⟩
    | cons fi rest ih =>
      intro s s' h
      unfold delChildren at h
      split at h
      · exact Except.noConfusion h
      · rename_i s1 heq
        unfold deleteDownwardsF at heq
        exact Except.noConfusion heq
  | succ n ihn =>
    have hA : ∀ s fi s', deleteDownwardsF (n + 1) s fi = .ok s' → ddPost s fi s' := by
      intro s fi s' h
      unfold deleteDownwardsF at h
      dsimp only [] at h
      split at h
      case h_1 e' heq => exact Except.noConfusion h
      case h_2 s2 heq =>
        injection h with h
        subst h
        have hfr3 : delFrame s2
            ({ s2 with
                 files := deleteRow s2.files fi.DirName fi.BaseName,
                 delLog := s2.delLog ++ [(fi.DirName, fi.BaseName)] } : DState) :=
          ⟨deleteRow_subset _ _ _, fun _ he => he, rfl, rfl, rfl, rfl, rfl,
           fun _ _ hh => findRow_none_mono (deleteRow_subset _ _ _) hh⟩
        by_cases hdir : fi.IsDir
        · rw [if_pos hdir] at heq
          obtain ⟨hfr, hkids, sub2, hlog2⟩ := ihn.2 _ _ _ heq
          refine ⟨delFrame_trans (deleteBlobs_frame s fi) (delFrame_trans hfr hfr3),
            ?_, ?_, ?_, ?_, ?_⟩
          · show findRow (deleteRow s2.files fi.DirName fi.BaseName)
              fi.DirName fi.BaseName = none
            exact findRow_deleteRow_self _ _ _
          · intro hloc e he
            exact deleteBlobs_clears s fi hloc e (hfr.obj_sub e he)
          · intro _ b
            show findRow (deleteRow s2.files fi.DirName fi.BaseName) (fiPath fi) b = none
            apply findRow_none_mono (deleteRow_subset _ _ _)
            cases hf : findRow s.files (fiPath fi) b with
            | none =>
              apply hfr.none_pres
              rw [deleteBlobs_files]
              exact hf
            | some r0 =>
              obtain ⟨hr0d, hr0b⟩ := findRow_some_key hf
              have hr0mem := findRow_some_mem hf
              have hsnap : ({ r0 with DirName := fiPath fi } : fileInfo) ∈
                  (((deleteBlobs s fi).files.filter
                    (fun r => r.DirName == fiPath fi)).map
                    (fun r => { r with DirName := fiPath fi })) := by
                apply List.mem_map.mpr
                refine ⟨r0, ?_, rfl⟩
                rw [deleteBlobs_files]
                exact List.mem_filter.mpr ⟨hr0mem, by simp [hr0d]⟩
              have hkid := (hkids _ hsnap).1
              rw [← hr0b]
              exact hkid
          · intro _ r0 hr0 hr0d hr0loc e he
            have hsnap : ({ r0 with DirName := fiPath fi } : fileInfo) ∈
                (((deleteBlobs s fi).files.filter
                  (fun r => r.DirName == fiPath fi)).map
                  (fun r => { r with DirName := fiPath fi })) := by
              apply List.mem_map.mpr
              refine ⟨r0, ?_, rfl⟩
              rw [deleteBlobs_files]
              exact List.mem_filter.mpr ⟨hr0, by simp [hr0d]⟩
            have hkb := (hkids _ hsnap).2
            rw [deleteBlobs_objPfx] at hkb
            exact hkb hr0loc e he
          · refine ⟨sub2, ?_⟩
            show s2.delLog ++ [(fi.DirName, fi.BaseName)]
              = s.delLog ++ sub2 ++ [(fi.DirName, fi.BaseName)]
            rw [hlog2, deleteBlobs_delLog]
        · rw [if_neg hdir] at heq
          injection heq with heq
          subst heq
          refine ⟨delFrame_trans (deleteBlobs_frame s fi) hfr3,
            ?_, ?_, fun hd => absurd hd hdir, fun hd => absurd hd hdir, ?_⟩
          · show findRow (deleteRow (deleteBlobs s fi).files fi.DirName fi.BaseName)
              fi.DirName fi.BaseName = none
            exact findRow_deleteRow_self _ _ _
          · intro hloc e he
            exact deleteBlobs_clears s fi hloc e he
          · refine ⟨[], ?_⟩
            show (deleteBlobs s fi).delLog ++ [(fi.DirName, fi.BaseName)]
              = s.delLog ++ [] ++ [(fi.DirName, fi.BaseName)]
            rw [deleteBlobs_delLog]
            simp
    refine ⟨hA, ?_⟩
    intro l
    induction l with
    | nil =>
      intro s s' h
      unfold delChildren at h
      injection h with h
      subst h
      exact ⟨delFrame_refl s, fun fi hfi => absurd hfi (List.not_mem_nil fi),
        ⟨[], by simp⟩⟩
    | cons fi rest ih =>
      intro s s' h
      unfold delChildren at h
      split at h
      · exact Except.noConfusion h
      · rename_i s1 heq
        obtain ⟨hfr1, hkey1, hblob1, _, _, sub1, hlog1⟩ := hA _ _ _ heq
        obtain ⟨hfr2, hrest, sub2, hlog2⟩ := ih _ _ h
        refine ⟨delFrame_trans hfr1 hfr2, ?_, ?_⟩
        · intro x hx
          rcases List.mem_cons.mp hx with rfl | hxr
          · refine ⟨hfr2.none_pres _ _ hkey1, ?_⟩
            intro hloc e he
            exact hblob1 hloc e (hfr2.obj_sub e he)
          · have hx2 := hrest x hxr
            refine ⟨hx2.1, ?_⟩
            intro hloc e he
            have hcl := hx2.2 hloc e he
            rw [hfr1.pfx] at hcl
            exact hcl
        · refine ⟨sub1 ++ [(fi.DirName, fi.BaseName)] ++ sub2, ?_⟩
          rw [hlog2, hlog1]
          simp

/-- Claim C5 (amended): a successful `delete` of a directory removes the
directory's record and every direct-child record together with the
associated external blobs, logging each child deletion before the parent
row's deletion; afterwards `stat` and `get` on the directory and on any
former child path return PathNotFound, a second `delete` succeeds as a
no-op — but `list` on the deleted directory returns an empty success
result, not PathNotFound. -/
theorem delete_directory_subtree
    (s s' : DState) (cs : List String) (c : String) (fi : fileInfo)
    (hw : wfComps cs) (hc : wfComp c)
    (hfi : readFileInfo s (joinComps (cs ++ [c])) = some fi)
    (hdel : Delete s (joinComps (cs ++ [c])) = .ok s') :
    (∀ r ∈ s'.files, r ∈ s.files) ∧
    s'.segments = s.segments ∧
    readFileInfo s' (joinComps (cs ++ [c])) = none ∧
    GetContent s' (joinComps (cs ++ [c]))
      = .error (.pathNotFound (joinComps (cs ++ [c]))) ∧
    Stat s' (joinComps (cs ++ [c]))
      = .error (.pathNotFound (joinComps (cs ++ [c]))) ∧
    Delete s' (joinComps (cs ++ [c])) = .ok s' ∧
    (fi.Location ≠ "" → ∀ e ∈ s'.swObjects,
      e.1.startsWith (prependPfx s.objPfx fi.Location ++ "/") = false) ∧
    (fi.IsDir →
      (∀ b, findRow s'.files (joinComps (cs ++ [c])) b = none) ∧
      (∀ b, wfComp b →
        readFileInfo s' (joinComps ((cs ++ [c]) ++ [b])) = none ∧
        GetContent s' (joinComps ((cs ++ [c]) ++ [b]))
          = .error (.pathNotFound (joinComps ((cs ++ [c]) ++ [b]))) ∧
        Stat s' (joinComps ((cs ++ [c]) ++ [b]))
          = .error (.pathNotFound (joinComps ((cs ++ [c]) ++ [b]))) ∧
        Delete s' (joinComps ((cs ++ [c]) ++ [b])) = .ok s') ∧
      ListOp s' (joinComps (cs ++ [c])) = .ok [] ∧
      (∀ b fi', findRow s.files (joinComps (cs ++ [c])) b = some fi' →
        fi'.Location ≠ "" → ∀ e ∈ s'.swObjects,
          e.1.startsWith (prependPfx s.objPfx fi'.Location ++ "/") = false)) ∧
    (∃ sub, s'.delLog = s.delLog ++ sub ++ [(joinComps cs, c)]) := by
  have hPne : joinComps (cs ++ [c]) ≠ "/" :=
    joinComps_ne_root (cs ++ [c]) (wfComps_append_single hw hc) (by simp)
  unfold Delete at hdel
  rw [hfi] at hdel
  dsimp only [] at hdel
  unfold deleteDownwards at hdel
  obtain ⟨hfr, hkey, hblob, hkids, hkblobs, sub, hlog⟩ := (dd_post_aux _).1 _ _ _ hdel
  have hkeys := findRow_some_key
    (show findRow s.files (joinComps cs) c = some fi by
      rw [← readFileInfo_join s cs c hw hc]
      exact hfi)
  have hfip : fiPath fi = joinComps (cs ++ [c]) := by
    unfold fiPath
    rw [hkeys.1, hkeys.2]
    exact goJoin_joinComps cs c hw hc
  have hnone : readFileInfo s' (joinComps (cs ++ [c])) = none := by
    rw [hkeys.1, hkeys.2] at hkey
    rw [readFileInfo_join s' cs c hw hc]
    exact hkey
  refine ⟨hfr.files_sub, hfr.seg, hnone, GetContent_none hnone,
    Stat_none hPne hnone, Delete_none hnone, hblob, ?_, ?_⟩
  · intro hdir
    have hkids' : ∀ b, findRow s'.files (joinComps (cs ++ [c])) b = none := by
      intro b
      rw [← hfip]
      exact hkids hdir b
    refine ⟨hkids', ?_, ?_, ?_⟩
    · intro b hb
      have hrb : readFileInfo s' (joinComps ((cs ++ [c]) ++ [b])) = none := by
        rw [readFileInfo_join s' (cs ++ [c]) b (wfComps_append_single hw hc) hb]
        exact hkids' b
      exact ⟨hrb, GetContent_none hrb,
        Stat_none (joinComps_ne_root ((cs ++ [c]) ++ [b])
          (wfComps_append_single (wfComps_append_single hw hc) hb) (by simp)) hrb,
        Delete_none hrb⟩
    · have hfilter : s'.files.filter (fun r => r.DirName == joinComps (cs ++ [c]))
          = [] := by
        rw [List.filter_eq_nil_iff]
        intro r hr
        simp only [beq_iff_eq]
        intro hrd
        have hsome : (findRow s'.files (joinComps (cs ++ [c])) r.BaseName).isSome :=
          (findRow_isSome_iff _ _ _).mpr ⟨r, hr, hrd, rfl⟩
        rw [hkids' r.BaseName] at hsome
        simp at hsome
      unfold ListOp
      rw [hfilter]
      rfl
    · intro b fi' hfind hloc
      exact hkblobs hdir fi' (findRow_some_mem hfind)
        (by rw [hfip]; exact (findRow_some_key hfind).1) hloc
  · refine ⟨sub, ?_⟩
    rw [hlog, hkeys.1, hkeys.2]

/-- The driver state for the C5 instantiations: directory "/d" containing
the inline file "/d/a" and the subdirectory "/d/b", which in turn holds
the inline file "/d/b/x". -/
def c5S : DState :=
  { files := [{ DirName := "/", BaseName := "d", SizeBytes := -1, ModifiedAt := 1,
                Contents := [], Location := "" },
              { DirName := "/d", BaseName := "a", SizeBytes := 1, ModifiedAt := 1,
                Contents := [1], Location := "" },
              { DirName := "/d", BaseName := "b", SizeBytes := -1, ModifiedAt := 1,
                Contents := [], Location := "" },
              { DirName := "/d/b", BaseName := "x", SizeBytes := 1, ModifiedAt := 1,
                Contents := [9], Location := "" }],
    segments := [], swObjects := [], swWriteCalls := 0, randCtr := 0, clock := 9,
    objPfx := "p", delLog := [] }

/-- The state after `Delete c5S "/d"`: every descendant record is gone,
and the deletion log shows each child row deleted before its parent row
("/d/b/x" before "/d/b", and everything before "/d" itself). -/
def c5S' : DState :=
  { files := [], segments := [], swObjects := [], swWriteCalls := 0, randCtr := 0,
    clock := 9, objPfx := "p",
    delLog := [("/d", "a"), ("/d/b", "x"), ("/d", "b"), ("/", "d")] }

/-- C5 counterexample: after deleting the directory "/d", `stat` and
`get` on the former descendant "/d/b" do return PathNotFound, but `list`
on that former descendant path returns the empty success result `.ok []`
and never a PathNotFound error. -/
theorem delete_list_counterexample :
    Delete c5S "/d" = .ok c5S' ∧
    readFileInfo c5S' "/d/b" = none ∧
    Stat c5S' "/d/b" = .error (.pathNotFound "/d/b") ∧
    ListOp c5S' "/d/b" = .ok [] ∧
    (∀ e, ListOp c5S' "/d/b" ≠ .error e) := by
  refine ⟨?_, rfl, rfl, rfl, fun e h => Except.noConfusion h⟩
  simp [Delete, deleteDownwards, deleteDownwardsF, delChildren, deleteBlobs,
    swiftDeleteAll, deleteRow, readFileInfo, findRow, goDir, goBase, fiPath, goJoin,
    c5S, c5S', prependPfx, trimSlashes, dropTrailingSlashes, fileInfo.IsDir]

theorem delete_directory_subtree_witness :
    (∀ r ∈ c5S'.files, r ∈ c5S.files) ∧
    c5S'.segments = c5S.segments ∧
    readFileInfo c5S' (joinComps ([] ++ ["d"])) = none ∧
    GetContent c5S' (joinComps ([] ++ ["d"]))
      = .error (.pathNotFound (joinComps ([] ++ ["d"]))) ∧
    Stat c5S' (joinComps ([] ++ ["d"]))
      = .error (.pathNotFound (joinComps ([] ++ ["d"]))) ∧
    Delete c5S' (joinComps ([] ++ ["d"])) = .ok c5S' ∧
    (("" : String) ≠ "" → ∀ e ∈ c5S'.swObjects,
      e.1.startsWith (prependPfx c5S.objPfx "" ++ "/") = false) ∧
    (fileInfo.IsDir { DirName := "/", BaseName := "d", SizeBytes := -1, ModifiedAt := 1, Contents := [], Location := "" } →
      (∀ b, findRow c5S'.files (joinComps ([] ++ ["d"])) b = none) ∧
      (∀ b, wfComp b →
        readFileInfo c5S' (joinComps (([] ++ ["d"]) ++ [b])) = none ∧
        GetContent c5S' (joinComps (([] ++ ["d"]) ++ [b]))
          = .error (.pathNotFound (joinComps (([] ++ ["d"]) ++ [b]))) ∧
        Stat c5S' (joinComps (([] ++ ["d"]) ++ [b]))
          = .error (.pathNotFound (joinComps (([] ++ ["d"]) ++ [b]))) ∧
        Delete c5S' (joinComps (([] ++ ["d"]) ++ [b])) = .ok c5S') ∧
      ListOp c5S' (joinComps ([] ++ ["d"])) = .ok [] ∧
      (∀ b fi', findRow c5S.files (joinComps ([] ++ ["d"])) b = some fi' →
        fi'.Location ≠ "" → ∀ e ∈ c5S'.swObjects,
          e.1.startsWith (prependPfx c5S.objPfx fi'.Location ++ "/") = false)) ∧
    (∃ sub, c5S'.delLog = c5S.delLog ++ sub ++ [(joinComps [], "d")]) := by
  exact delete_directory_subtree c5S c5S' [] "d"
    { DirName := "/", BaseName := "d", SizeBytes := -1, ModifiedAt := 1,
      Contents := [], Location := "" }
    (by decide) (by decide) (by decide)
    (by
      simp [Delete, deleteDownwards, deleteDownwardsF, delChildren, deleteBlobs,
        swiftDeleteAll, deleteRow, readFileInfo, findRow, goDir, goBase, fiPath,
        goJoin, c5S, c5S', prependPfx, trimSlashes, dropTrailingSlashes,
        fileInfo.IsDir, joinComps])
